import Mathlib

/-!
SAM EEFC flash driver (`drivers/flash/flash_sam_eefc.c`)

A shallow embedding of the driver's operations and the properties proved of
them.

Conventions of the embedding

* `u32_t`, `size_t` and the bit pattern of an `off_t` are natural numbers below
  `2 ^ 32`; every addition, subtraction and multiplication the C code performs
  in 32-bit unsigned arithmetic is reduced modulo `2 ^ 32`, every assignment to
  a `u16_t` modulo `2 ^ 16`.  All uses of the signed `offset` in the source
  first convert it to unsigned (mixed `long`/`unsigned` arithmetic on a 32-bit
  target), so the embedding works with its unsigned bit pattern throughout.
* A division by zero does not return: the source divides by `page_size`,
  `erase_len` and `lock_bits_number` without a test, and a call that reaches
  such a division with a zero divisor stops there.  The outcome of a call
  therefore carries an optional return value, `none` standing for a call that
  did not return, together with the device record and the hardware as they were
  at that point.  Each driver function tests the divisor at the place where
  the source divides, so Lean's `x / 0 = 0` is never what a result rests on.
* The controller is an oracle: what a register read or a command returns is a
  function of everything the driver has done to the hardware so far (the
  trace).  Quantifying over the oracle quantifies over controller behaviours.
* The address space is a byte map `Nat → Nat`, indexed modulo `2 ^ 32`.
* A pointer to a caller's buffer is the view of memory from that pointer: a
  function from byte index to byte value.
* The only unbounded loop, the wait for ready in `flash_sam_init`, takes a
  bound on the number of status reads and yields `none` when it is exhausted.
-/

namespace FlashSam

/-! ## errno values (`errno.h`) -/

/-- The errno value for an input/output error. -/
def EIO : Int := 5

/-- The errno value for permission denied. -/
def EACCES : Int := 13

/-- The errno value for device or resource busy. -/
def EBUSY : Int := 16

/-- The errno value for an invalid argument. -/
def EINVAL : Int := 22

/-! ## The hardware -/

/-- Modelled from the spec: the `EEFC_FCR_FCMD_*` command codes of `soc.h`,
which is absent; these are the commands the driver names (the spec lists
get-descriptor, write-page, erase-all, erase-page-batch, set/clear lock bit and
get-lock-status). -/
inductive Fcmd where
  | GETD
  | WP
  | EA
  | EPA
  | SLB
  | CLB
  | GLB
  deriving DecidableEq, Repr

/-- Modelled from the spec: a command word is the packed value of
{command code, command argument, fixed unlock key}; the packing macros
`EEFC_FCR_FARG` and `EEFC_FCR_FKEY_PASSWD` of `soc.h` are absent, so the word
is kept as the command code together with the value of the expression the
driver passes to `EEFC_FCR_FARG` (the key is the same in every word). -/
structure FcrWord where
  fcmd : Fcmd
  farg : Nat
  deriving DecidableEq, Repr

/-- One interaction of the driver with the controller. -/
inductive HwEvent where
  /-- a read of the status register `EEFC_FSR` that returned `v` -/
  | fsrRead (v : Nat)
  /-- a read of the result register `EEFC_FRR` that returned `v` -/
  | frrRead (v : Nat)
  /-- a direct store of a command word to the command register `EEFC_FCR` -/
  | fcrWrite (c : FcrWord)
  /-- a call `soc_iap_send_flash_cmd(0, c)` that returned `ack` -/
  | iapCmd (c : FcrWord) (ack : Nat)
  deriving DecidableEq, Repr

/-- The controller `Efc *regs` as seen by the driver.  Each field gives the
value delivered by the next access as a function of the trace so far.
Modelled from the spec: the body of `soc_iap_send_flash_cmd` is absent; it
issues the command word and returns the acknowledgment, 0x1 meaning success. -/
structure Efc where
  EEFC_FSR : List HwEvent → Nat
  EEFC_FRR : List HwEvent → Nat
  iap_ack : List HwEvent → FcrWord → Nat

/-- The hardware state the driver acts on: the trace of controller accesses (in
order of occurrence) and the byte contents of the 32-bit address space. -/
structure Hw where
  trace : List HwEvent
  mem : Nat → Nat

/-- Append an event to the trace. -/
def Hw.log (hw : Hw) (e : HwEvent) : Hw :=
  { hw with trace := hw.trace ++ [e] }

/-- The byte at a 32-bit address. -/
def Hw.load (hw : Hw) (addr : Nat) : Nat :=
  hw.mem (addr % 2 ^ 32)

/-- Reading `efc->EEFC_FSR`. -/
def read_FSR (efc : Efc) (hw : Hw) : Nat × Hw :=
  (efc.EEFC_FSR hw.trace, hw.log (.fsrRead (efc.EEFC_FSR hw.trace)))

/-- Reading `efc->EEFC_FRR`. -/
def read_FRR (efc : Efc) (hw : Hw) : Nat × Hw :=
  (efc.EEFC_FRR hw.trace, hw.log (.frrRead (efc.EEFC_FRR hw.trace)))

/-- The call `soc_iap_send_flash_cmd(0, c)`: the acknowledgment and the
hardware after it. -/
def soc_iap_send_flash_cmd (efc : Efc) (hw : Hw) (c : FcrWord) : Nat × Hw :=
  (efc.iap_ack hw.trace c, hw.log (.iapCmd c (efc.iap_ack hw.trace c)))

/-- The bytes `memcpy(dst, src, n)` leaves in the address space: byte `j` of
the source view is stored at address `dst + j`, for `j` from `0` to `n - 1`. -/
def memcpy (mem : Nat → Nat) (dst : Nat) (src : Nat → Nat) : Nat → (Nat → Nat)
  | 0 => mem
  | n + 1 => fun a => if a = (dst + n) % 2 ^ 32 then src n else memcpy mem dst src n a

/-- The command words issued so far, in order (through the IAP routine or by a
direct store to the command register). -/
def cmds : List HwEvent → List FcrWord
  | [] => []
  | .iapCmd c _ :: t => c :: cmds t
  | .fcrWrite c :: t => c :: cmds t
  | _ :: t => cmds t

/-! ## The device record -/

/-- The C struct `flash_sam_dev_cfg`. -/
structure flash_sam_dev_cfg where
  regs : Efc
  periph_id : Nat
  flash_offset : Nat

/-- The C struct `flash_sam_dev_data`; `locked` is a `u8_t`. -/
structure flash_sam_dev_data where
  flash_id : Nat
  flash_size : Nat
  page_size : Nat
  erase_len : Nat
  planes_number : Nat
  lock_bits_number : Nat
  locked : Nat

/-- The part of `struct device` the driver uses. -/
structure Device where
  config : flash_sam_dev_cfg
  driver_data : flash_sam_dev_data

/-- What a driver call leaves behind: the return value (`none` when the call
did not return because it divided by zero), the device record and the
hardware. -/
structure Outcome where
  ret : Option Int
  dev : Device
  hw : Hw

/-! ## The driver -/

/-- The C function `is_aligned`:
`(data & (byte_alignment - 1)) ? false : true`, in `u32_t`. -/
def is_aligned (data byte_alignment : Nat) : Bool :=
  if data &&& ((byte_alignment + 2 ^ 32 - 1) % 2 ^ 32) ≠ 0 then false else true

/-- The block loop of `flash_sam_erase`: `n` iterations remain, `start_page`
is the `u16_t` page counter. -/
def erase_loop (efc : Efc) (dev_data : flash_sam_dev_data) :
    Nat → Nat → Hw → Int × Hw
  | 0, _, hw => (0, hw)
  | n + 1, start_page, hw =>
    let r := soc_iap_send_flash_cmd efc hw ⟨.EPA, start_page ||| 0x2⟩
    if r.1 ≠ 0x1 then
      (- EIO, r.2)
    else
      erase_loop efc dev_data n
        ((start_page + dev_data.erase_len / dev_data.page_size) % 2 ^ 16) r.2

/-- The C function `flash_sam_erase`.  The divisions are `offset / page_size`
(after the ready test) and, on the block path, `len / erase_len` in the loop
condition; inside the loop both divisors are known to be non-zero. -/
def flash_sam_erase (dev : Device) (hw : Hw) (offset len : Nat) : Outcome :=
  let dev_cfg := dev.config
  let dev_data := dev.driver_data
  let efc := dev_cfg.regs
  if dev_data.locked ≠ 0 then
    ⟨some (- EACCES), dev, hw⟩
  else if !is_aligned offset dev_data.page_size then
    ⟨some (- EINVAL), dev, hw⟩
  else
    let s := read_FSR efc hw
    if s.1 &&& 0x1 ≠ 1 then
      ⟨some (- EBUSY), dev, s.2⟩
    else if dev_data.page_size = 0 then
      ⟨none, dev, s.2⟩
    else
      let start_page := (offset / dev_data.page_size) % 2 ^ 16
      if start_page = 0 ∧ len = dev_data.flash_size then
        let r := soc_iap_send_flash_cmd efc s.2 ⟨.EA, 0⟩
        if r.1 ≠ 0x1 then ⟨some (- EIO), dev, r.2⟩ else ⟨some 0, dev, r.2⟩
      else if is_aligned len dev_data.erase_len && is_aligned offset dev_data.erase_len then
        if dev_data.erase_len = 0 then
          ⟨none, dev, s.2⟩
        else
          let r := erase_loop efc dev_data (len / dev_data.erase_len) start_page s.2
          ⟨some r.1, dev, r.2⟩
      else
        ⟨some (- EINVAL), dev, s.2⟩

/-- What `flash_sam_read` leaves behind: an `Outcome` and the caller's buffer. -/
structure ReadOutcome where
  ret : Int
  dev : Device
  hw : Hw
  data : Nat → Nat

/-- The C function `flash_sam_read`; `data` is the caller's destination
buffer before the call. -/
def flash_sam_read (dev : Device) (hw : Hw) (offset : Nat) (data : Nat → Nat)
    (len : Nat) : ReadOutcome :=
  let dev_cfg := dev.config
  let dev_data := dev.driver_data
  if (offset + len) % 2 ^ 32 > dev_data.flash_size then
    ⟨- EINVAL, dev, hw, data⟩
  else
    let addr := (offset + dev_cfg.flash_offset) % 2 ^ 32
    ⟨0, dev, hw, fun i => if i < len then hw.load (addr + i) else data i⟩

/-- The page loop of `flash_sam_write`: `n` iterations remain, `i` is the loop
variable, `buffer_pointer` and `data` the two moving pointers. -/
def write_loop (efc : Efc) (page_size len : Nat) :
    Nat → Nat → Nat → (Nat → Nat) → Hw → Int × Hw
  | 0, _, _, _, hw => (0, hw)
  | n + 1, i, buffer_pointer, data, hw =>
    let copy_len := if len > page_size then page_size else len
    let hw1 : Hw := { hw with mem := memcpy hw.mem buffer_pointer data copy_len }
    let s := read_FSR efc hw1
    if s.1 &&& 0x1 ≠ 1 then
      (- EBUSY, s.2)
    else
      let r := soc_iap_send_flash_cmd efc s.2 ⟨.WP, i⟩
      if r.1 ≠ 0x1 then
        (- EIO, r.2)
      else
        write_loop efc page_size len n (i + 1)
          ((buffer_pointer + copy_len) % 2 ^ 32) (fun j => data (copy_len + j)) r.2

/-- In `flash_sam_write`: `start_page = offset / dev_data->page_size`, stored
in a `u16_t`. -/
def write_start_page (dev_data : flash_sam_dev_data) (offset : Nat) : Nat :=
  (offset / dev_data.page_size) % 2 ^ 16

/-- In `flash_sam_write`:
`end_page = (offset + (len - 4)) / dev_data->page_size`, computed in unsigned
32-bit arithmetic and stored in a `u16_t`. -/
def write_end_page (dev_data : flash_sam_dev_data) (offset len : Nat) : Nat :=
  (((offset + (len + 2 ^ 32 - 4) % 2 ^ 32) % 2 ^ 32) / dev_data.page_size) % 2 ^ 16

/-- The C function `flash_sam_write`; `data` is the caller's source buffer.
The divisions by `page_size` come after the three validation tests. -/
def flash_sam_write (dev : Device) (hw : Hw) (offset : Nat) (data : Nat → Nat)
    (len : Nat) : Outcome :=
  let dev_cfg := dev.config
  let dev_data := dev.driver_data
  let efc := dev_cfg.regs
  if dev_data.locked ≠ 0 then
    ⟨some (- EACCES), dev, hw⟩
  else if !is_aligned len 16 || !is_aligned offset 16 then
    ⟨some (- EINVAL), dev, hw⟩
  else if (offset + len) % 2 ^ 32 > dev_data.flash_size then
    ⟨some (- EINVAL), dev, hw⟩
  else if dev_data.page_size = 0 then
    ⟨none, dev, hw⟩
  else
    let start_page := write_start_page dev_data offset
    let end_page := write_end_page dev_data offset len
    let buffer_pointer := (dev_cfg.flash_offset + offset) % 2 ^ 32
    let r := write_loop efc dev_data.page_size len (end_page + 1 - start_page)
      start_page buffer_pointer data hw
    ⟨some r.1, dev, r.2⟩

/-- The clear-lock-bit loop of `flash_sam_write_protection`: `n` iterations
remain, `i` is the loop variable. -/
def clb_loop (efc : Efc) (pages_per_lock : Nat) : Nat → Nat → Hw → Hw
  | 0, _, hw => hw
  | n + 1, i, hw =>
    clb_loop efc pages_per_lock n (i + 1)
      (soc_iap_send_flash_cmd efc hw ⟨.CLB, (i * pages_per_lock) % 2 ^ 32⟩).2

/-- The C function `flash_sam_write_protection`.  The divisions by
`lock_bits_number` and by `page_size` are the first statements, before the
ready test. -/
def flash_sam_write_protection (dev : Device) (hw : Hw) (enable : Bool) : Outcome :=
  let dev_cfg := dev.config
  let dev_data := dev.driver_data
  let efc := dev_cfg.regs
  if dev_data.lock_bits_number = 0 then
    ⟨none, dev, hw⟩
  else if dev_data.page_size = 0 then
    ⟨none, dev, hw⟩
  else
    let lock_size := dev_data.flash_size / dev_data.lock_bits_number
    let pages_per_lock := lock_size / dev_data.page_size
    let s := read_FSR efc hw
    if s.1 &&& 0x1 ≠ 1 then
      ⟨some (- EBUSY), dev, s.2⟩
    else
      let r := soc_iap_send_flash_cmd efc s.2 ⟨.GLB, 0⟩
      let st := read_FRR efc r.2
      let hw3 :=
        if st.1 ≠ 0x0 then clb_loop efc pages_per_lock dev_data.lock_bits_number 0 st.2
        else st.2
      ⟨some 0, { dev with driver_data := { dev_data with locked := if enable then 1 else 0 } },
        hw3⟩

/-- In `flash_sam_write_protection`: the value `status` read from the result
register after the get-lock-bits command, when the controller was ready. -/
def lock_status (dev : Device) (hw : Hw) : Nat :=
  (read_FRR dev.config.regs
    (soc_iap_send_flash_cmd dev.config.regs (read_FSR dev.config.regs hw).2 ⟨.GLB, 0⟩).2).1

/-! ## Sequences of driver calls -/

/-- A call of one of the operations of `flash_sam_api`, with its arguments. -/
inductive Call where
  | erase (offset len : Nat)
  | write (offset : Nat) (data : Nat → Nat) (len : Nat)
  | read (offset : Nat) (data : Nat → Nat) (len : Nat)
  | write_protection (enable : Bool)

/-- Whether a call is `write_protection(dev, false)`. -/
def Call.isUnprotect : Call → Bool
  | .write_protection false => true
  | _ => false

/-- The device record together with the hardware. -/
structure Sys where
  dev : Device
  hw : Hw

/-- The state after one call that returns; `none` when the call does not
return. -/
def Sys.call (s : Sys) : Call → Option Sys
  | .erase offset len =>
    if (flash_sam_erase s.dev s.hw offset len).ret = none then none
    else some ⟨(flash_sam_erase s.dev s.hw offset len).dev,
      (flash_sam_erase s.dev s.hw offset len).hw⟩
  | .write offset data len =>
    if (flash_sam_write s.dev s.hw offset data len).ret = none then none
    else some ⟨(flash_sam_write s.dev s.hw offset data len).dev,
      (flash_sam_write s.dev s.hw offset data len).hw⟩
  | .read offset data len =>
    some ⟨(flash_sam_read s.dev s.hw offset data len).dev,
      (flash_sam_read s.dev s.hw offset data len).hw⟩
  | .write_protection enable =>
    if (flash_sam_write_protection s.dev s.hw enable).ret = none then none
    else some ⟨(flash_sam_write_protection s.dev s.hw enable).dev,
      (flash_sam_write_protection s.dev s.hw enable).hw⟩

/-- The state after a sequence of calls, made one after the other; `none` when
one of them does not return. -/
def Sys.run (s : Sys) : List Call → Option Sys
  | [] => some s
  | c :: cs =>
    match s.call c with
    | none => none
    | some s1 => s1.run cs

/-- The state reached by `flash_sam_write_protection(dev, true)` followed by
the calls `cs`. -/
def afterProtect (dev : Device) (hw : Hw) (cs : List Call) : Option Sys :=
  (Sys.mk (flash_sam_write_protection dev hw true).dev
    (flash_sam_write_protection dev hw true).hw).run cs

/-! ## Concrete devices used to instantiate the theorems -/

/-- A controller that always reads ready, acknowledges every command with 0x1
and reports a non-zero result register. -/
def readyEfc : Efc := ⟨fun _ => 1, fun _ => 1, fun _ _ => 1⟩

/-- A controller that always reads ready, rejects every command (acknowledgment
0) and reports a zero result register. -/
def nackEfc : Efc := ⟨fun _ => 1, fun _ => 0, fun _ _ => 0⟩

/-- A controller that always reads busy. -/
def busyEfc : Efc := ⟨fun _ => 0, fun _ => 0, fun _ _ => 1⟩

/-- A 2 MiB flash of 512-byte pages and 128 lock regions. -/
def geom2M : flash_sam_dev_data :=
  { flash_id := 0, flash_size := 0x200000, page_size := 512, erase_len := 8192,
    planes_number := 1, lock_bits_number := 128, locked := 0 }

/-- A 32 KiB flash of 512-byte pages (4 erase blocks) and 4 lock regions. -/
def geom32K : flash_sam_dev_data :=
  { flash_id := 0, flash_size := 0x8000, page_size := 512, erase_len := 8192,
    planes_number := 1, lock_bits_number := 4, locked := 0 }

/-- A 64 MiB flash of 512-byte pages: 131072 pages, more than a 16-bit page
index can number. -/
def geom64M : flash_sam_dev_data :=
  { flash_id := 0, flash_size := 0x4000000, page_size := 512, erase_len := 8192,
    planes_number := 1, lock_bits_number := 128, locked := 0 }

/-- A device with the given controller and geometry, its flash window at
0x400000. -/
def mkDev (efc : Efc) (d : flash_sam_dev_data) : Device :=
  ⟨⟨efc, 0, 0x400000⟩, d⟩

/-- Hardware with an empty trace and every byte erased (0xFF). -/
def hwErased : Hw := ⟨[], fun _ => 0xFF⟩

/-- A caller's buffer whose byte `i` is `i % 251`. -/
def rampData : Nat → Nat := fun i => i % 251

/-- A 4 KiB flash of 32-byte pages. -/
def geomP32 : flash_sam_dev_data :=
  { flash_id := 0, flash_size := 0x1000, page_size := 32, erase_len := 512,
    planes_number := 1, lock_bits_number := 4, locked := 0 }

/-- A flash of 4097 pages of 512 bytes: its size is not a multiple of the
erase-block size. -/
def geomOdd : flash_sam_dev_data :=
  { flash_id := 0, flash_size := 0x200200, page_size := 512, erase_len := 8192,
    planes_number := 1, lock_bits_number := 128, locked := 0 }

/-! ## Ordering of status reads and commands -/

/-- Whether an event is the issue of a command. -/
def isCmd : HwEvent → Bool
  | .iapCmd _ _ => true
  | .fcrWrite _ => true
  | _ => false

/-- Whether an event is a read of the status register that found bit 0 set
(ready). -/
def isReadyRead : HwEvent → Bool
  | .fsrRead v => v &&& 1 == 1
  | _ => false

/-- Whether every command in a list of events comes directly after a status
read that found the controller ready; `prev` tells whether the event just
before the list was such a read. -/
def guardedFrom (prev : Bool) : List HwEvent → Bool
  | [] => true
  | e :: t => (!isCmd e || prev) && guardedFrom (isReadyRead e) t

/-- In the block loop of `flash_sam_erase`: the command word of iteration `j`,
for a loop entered with page counter `start_page`. -/
def epa_word (dev_data : flash_sam_dev_data) (start_page j : Nat) : FcrWord :=
  ⟨.EPA, ((start_page + j * (dev_data.erase_len / dev_data.page_size)) % 2 ^ 16) ||| 0x2⟩

/-- The trace `t` followed by the first `j` erase-block commands of a batch,
each acknowledged with 0x1. -/
def epa_acked (dev_data : flash_sam_dev_data) (start_page : Nat) (t : List HwEvent)
    (j : Nat) : List HwEvent :=
  t ++ (List.range j).map (fun i => HwEvent.iapCmd (epa_word dev_data start_page i) 1)

/-! ## Initialisation -/

/-- The C struct `flash_pages_layout` (`flash.h`). -/
structure flash_pages_layout where
  pages_count : Nat
  pages_size : Nat
  deriving DecidableEq, Repr

/-- What `flash_sam_init` leaves behind: return value (`none` when the call did
not return because it divided by zero), device record, hardware and the static
`dev_layout`. -/
structure InitOutcome where
  ret : Option Int
  dev : Device
  hw : Hw
  dev_layout : flash_pages_layout

/-- The loop `while ((efc->EEFC_FSR & 0x1) != 1) { }` of `flash_sam_init`, run
for at most `fuel` reads of the status register; `none` when the controller
has not become ready by then. -/
def wait_ready (efc : Efc) : Nat → Hw → Option Hw
  | 0, _ => none
  | fuel + 1, hw =>
    if (read_FSR efc hw).1 &&& 0x1 ≠ 1 then wait_ready efc fuel (read_FSR efc hw).2
    else some (read_FSR efc hw).2

/-- The loop of `flash_sam_init` that reads the result register `n` times and
discards the values. -/
def skip_FRR (efc : Efc) : Nat → Hw → Hw
  | 0, hw => hw
  | n + 1, hw => skip_FRR efc n (read_FRR efc hw).2

/-- The C function `flash_sam_init` (with `CONFIG_FLASH_PAGE_LAYOUT`); `fuel`
bounds the number of status reads of the wait loop (`none`: still busy when it
is used up), `dev_layout` is the static of that name before the call.  The
division `flash_size / erase_len` comes last, after the device record has been
filled in; with `erase_len = 0` the call stops there and `dev_layout` is left
as it was. -/
def flash_sam_init (fuel : Nat) (dev : Device) (hw : Hw) (dev_layout : flash_pages_layout) :
    Option InitOutcome :=
  let efc := dev.config.regs
  match wait_ready efc fuel (hw.log (.fcrWrite ⟨.GETD, 0⟩)) with
  | none => none
  | some hw1 =>
    let r_id := read_FRR efc hw1
    let r_size := read_FRR efc r_id.2
    let r_psz := read_FRR efc r_size.2
    let r_planes := read_FRR efc r_psz.2
    let erase_len := (r_psz.1 * 16) % 2 ^ 32
    let r_lock := read_FRR efc (skip_FRR efc r_planes.1 r_planes.2)
    let dev1 : Device := { dev with driver_data :=
      { flash_id := r_id.1, flash_size := r_size.1, page_size := r_psz.1,
        erase_len := erase_len, planes_number := r_planes.1,
        lock_bits_number := r_lock.1, locked := 0 } }
    if erase_len = 0 then
      some { ret := none, dev := dev1, hw := r_lock.2, dev_layout := dev_layout }
    else
      some { ret := some 0, dev := dev1, hw := r_lock.2,
             dev_layout := ⟨r_size.1 / erase_len, erase_len⟩ }

/-- The trace after `k` further reads of the status register. -/
def poll_trace (efc : Efc) : Nat → List HwEvent → List HwEvent
  | 0, t => t
  | k + 1, t => poll_trace efc k (t ++ [.fsrRead (efc.EEFC_FSR t)])

/-- The values the next `k` reads of the result register deliver, starting from
trace `t`. -/
def frr_values (efc : Efc) : Nat → List HwEvent → List Nat
  | 0, _ => []
  | k + 1, t => efc.EEFC_FRR t :: frr_values efc k (t ++ [.frrRead (efc.EEFC_FRR t)])

/-- A simulated controller that is ready at once and delivers the given
descriptor words, in order, on successive reads of the result register. -/
def descEfc (words : List Nat) : Efc :=
  ⟨fun _ => 1,
   fun t => words.getD (t.filter (fun e => match e with | .frrRead _ => true | _ => false)).length 0,
   fun _ _ => 1⟩

/-- A simulated controller as `descEfc`, but busy for the first two reads of
the status register. -/
def slowDescEfc (words : List Nat) : Efc :=
  ⟨fun t => if (t.filter (fun e => match e with | .fsrRead _ => true | _ => false)).length < 2
      then 0 else 1,
   fun t => words.getD (t.filter (fun e => match e with | .frrRead _ => true | _ => false)).length 0,
   fun _ _ => 1⟩

/-- The 2 MiB geometry with a page size of zero. -/
def geomPage0 : flash_sam_dev_data :=
  { flash_id := 0, flash_size := 0x200000, page_size := 0, erase_len := 0,
    planes_number := 1, lock_bits_number := 128, locked := 0 }

/-- The 2 MiB geometry with no lock region. -/
def geomLock0 : flash_sam_dev_data :=
  { flash_id := 0, flash_size := 0x200000, page_size := 512, erase_len := 8192,
    planes_number := 1, lock_bits_number := 0, locked := 0 }

/-- A device record before initialisation: every field zero. -/
def geomZero : flash_sam_dev_data :=
  { flash_id := 0, flash_size := 0, page_size := 0, erase_len := 0,
    planes_number := 0, lock_bits_number := 0, locked := 0 }

/-- A controller that is always ready and acknowledges every command with 0x1,
except the command issued after exactly `k` earlier commands, which it rejects
(acknowledgment 0). -/
def failAtEfc (k : Nat) : Efc :=
  ⟨fun _ => 1, fun _ => 1, fun t _ => if (cmds t).length = k then 0 else 1⟩

/-! ## Basic facts -/

theorem cmds_append (a b : List HwEvent) : cmds (a ++ b) = cmds a ++ cmds b := by
  induction a with
  | nil => rfl
  | cons e t ih => cases e <;> simp [cmds, ih]

theorem flash_sam_erase_dev (dev : Device) (hw : Hw) (offset len : Nat) :
    (flash_sam_erase dev hw offset len).dev = dev := by
  unfold flash_sam_erase
  simp only []
  split_ifs <;> rfl

theorem flash_sam_write_dev (dev : Device) (hw : Hw) (offset : Nat) (data : Nat → Nat)
    (len : Nat) : (flash_sam_write dev hw offset data len).dev = dev := by
  unfold flash_sam_write
  simp only []
  split_ifs <;> rfl

theorem flash_sam_read_dev (dev : Device) (hw : Hw) (offset : Nat) (data : Nat → Nat)
    (len : Nat) : (flash_sam_read dev hw offset data len).dev = dev := by
  unfold flash_sam_read
  simp only []
  split_ifs <;> rfl

theorem flash_sam_erase_locked (dev : Device) (hw : Hw) (offset len : Nat)
    (h : dev.driver_data.locked ≠ 0) :
    flash_sam_erase dev hw offset len = ⟨some (- EACCES), dev, hw⟩ := by
  unfold flash_sam_erase
  simp only []
  rw [if_pos h]

theorem flash_sam_write_locked (dev : Device) (hw : Hw) (offset : Nat) (data : Nat → Nat)
    (len : Nat) (h : dev.driver_data.locked ≠ 0) :
    flash_sam_write dev hw offset data len = ⟨some (- EACCES), dev, hw⟩ := by
  unfold flash_sam_write
  simp only []
  rw [if_pos h]

/-- After a successful `flash_sam_write_protection(dev, true)` the flag is set;
and since the call returned, neither divisor is zero. -/
theorem write_protection_true_locked (dev : Device) (hw : Hw)
    (h : (flash_sam_write_protection dev hw true).ret = some 0) :
    (flash_sam_write_protection dev hw true).dev.driver_data.locked ≠ 0 ∧
    (flash_sam_write_protection dev hw true).dev.driver_data.lock_bits_number ≠ 0 ∧
    (flash_sam_write_protection dev hw true).dev.driver_data.page_size ≠ 0 := by
  unfold flash_sam_write_protection at h ⊢
  simp only [] at h ⊢
  split_ifs at h ⊢ with h1 h2 h3
  all_goals first
    | (exfalso; simp [EBUSY] at h; done)
    | exact ⟨by simp, h1, h2⟩

/-- A call other than `write_protection(dev, false)`, made with the flag set
and non-zero divisors, returns and leaves the flag set and the divisors as
they were. -/
theorem call_keeps_locked (s : Sys) (c : Call) (hc : c.isUnprotect = false)
    (h : s.dev.driver_data.locked ≠ 0 ∧ s.dev.driver_data.lock_bits_number ≠ 0 ∧
      s.dev.driver_data.page_size ≠ 0) :
    ∃ s1, s.call c = some s1 ∧
      (s1.dev.driver_data.locked ≠ 0 ∧ s1.dev.driver_data.lock_bits_number ≠ 0 ∧
        s1.dev.driver_data.page_size ≠ 0) := by
  cases c with
  | erase offset len =>
    refine ⟨⟨s.dev, s.hw⟩, ?_, h⟩
    simp [Sys.call, flash_sam_erase_locked _ _ _ _ h.1]
  | write offset data len =>
    refine ⟨⟨s.dev, s.hw⟩, ?_, h⟩
    simp [Sys.call, flash_sam_write_locked _ _ _ _ _ h.1]
  | read offset data len =>
    exact ⟨_, rfl, by simpa [flash_sam_read_dev] using h⟩
  | write_protection enable =>
    cases enable with
    | false => simp [Call.isUnprotect] at hc
    | true =>
      simp only [Sys.call]
      unfold flash_sam_write_protection
      simp only [h.2.1, h.2.2, if_false]
      split_ifs
      all_goals first
        | exact ⟨_, rfl, h⟩
        | exact ⟨_, rfl, by simp, h.2.1, h.2.2⟩
        | (exfalso; simp_all)

theorem run_keeps_locked (cs : List Call) :
    ∀ s : Sys, (∀ c ∈ cs, c.isUnprotect = false) →
      (s.dev.driver_data.locked ≠ 0 ∧ s.dev.driver_data.lock_bits_number ≠ 0 ∧
        s.dev.driver_data.page_size ≠ 0) →
      ∃ s2, s.run cs = some s2 ∧ s2.dev.driver_data.locked ≠ 0 := by
  induction cs with
  | nil => intro s _ h; exact ⟨s, rfl, h.1⟩
  | cons c cs ih =>
    intro s hcs h
    obtain ⟨s1, e1, h1⟩ := call_keeps_locked s c (hcs c (List.mem_cons_self _ _)) h
    obtain ⟨s2, e2, h2⟩ := ih s1 (fun c' hc' => hcs c' (List.mem_cons_of_mem _ hc')) h1
    exact ⟨s2, by simp only [Sys.run, e1, e2], h2⟩

/-! ## C1 -/

/-- C1: once `flash_sam_write_protection(dev, true)` has returned success, any
sequence of further driver calls none of which is `write_protection(dev, false)`
runs to its end, and after it every `flash_sam_erase` and every
`flash_sam_write` (any offset, length, data) returns `-EACCES` and leaves the
device record and the hardware (trace of controller accesses and memory, hence
the latch buffer) exactly as they were: no command is issued and nothing is
copied.  This holds for every geometry and every controller. -/
theorem locked_rejects_erase_and_write (dev : Device) (hw : Hw)
    (h : (flash_sam_write_protection dev hw true).ret = some 0)
    (cs : List Call) (hcs : ∀ c ∈ cs, c.isUnprotect = false) :
    ∃ s, afterProtect dev hw cs = some s ∧
      (∀ offset len,
        flash_sam_erase s.dev s.hw offset len = ⟨some (- EACCES), s.dev, s.hw⟩) ∧
      (∀ offset data len,
        flash_sam_write s.dev s.hw offset data len = ⟨some (- EACCES), s.dev, s.hw⟩) := by
  obtain ⟨s, e, hl⟩ := run_keeps_locked cs
    (Sys.mk (flash_sam_write_protection dev hw true).dev
      (flash_sam_write_protection dev hw true).hw) hcs
    (write_protection_true_locked dev hw h)
  exact ⟨s, e, fun offset len => flash_sam_erase_locked _ _ offset len hl,
    fun offset data len => flash_sam_write_locked _ _ offset data len hl⟩

theorem locked_rejects_erase_and_write_witness :
    (flash_sam_write_protection (mkDev readyEfc geom2M) hwErased true).ret = some 0 ∧
    (∀ c ∈ [Call.erase 0 8192, Call.write_protection true, Call.read 0 rampData 16,
        Call.write 512 rampData 32], c.isUnprotect = false) ∧
    (∃ s,
      afterProtect (mkDev readyEfc geom2M) hwErased
        [Call.erase 0 8192, Call.write_protection true, Call.read 0 rampData 16,
          Call.write 512 rampData 32] = some s ∧
      (∀ offset len,
        flash_sam_erase s.dev s.hw offset len = ⟨some (- EACCES), s.dev, s.hw⟩) ∧
      (∀ offset data len,
        flash_sam_write s.dev s.hw offset data len = ⟨some (- EACCES), s.dev, s.hw⟩)) :=
  ⟨by decide, by decide,
    locked_rejects_erase_and_write (mkDev readyEfc geom2M) hwErased (by decide)
      [Call.erase 0 8192, Call.write_protection true, Call.read 0 rampData 16,
        Call.write 512 rampData 32] (by decide)⟩

/-! ## Alignment -/

theorem is_aligned_two_pow (x k : Nat) (hk : k < 32) :
    is_aligned x (2 ^ k) = true ↔ 2 ^ k ∣ x := by
  unfold is_aligned
  have h2 : 2 ^ k < 2 ^ 32 := Nat.pow_lt_pow_right (by norm_num) hk
  have h1 : 1 ≤ 2 ^ k := Nat.one_le_two_pow
  have h3 : (2 ^ k + 2 ^ 32 - 1) % 2 ^ 32 = 2 ^ k - 1 := by
    have e : 2 ^ k + 2 ^ 32 - 1 = (2 ^ k - 1) + 2 ^ 32 := by omega
    rw [e, Nat.add_mod_right, Nat.mod_eq_of_lt (by omega)]
  rw [h3, Nat.and_pow_two_sub_one_eq_mod]
  simp [Nat.dvd_iff_mod_eq_zero]

theorem is_aligned_16 (x : Nat) : is_aligned x 16 = true ↔ 16 ∣ x := by
  simpa using is_aligned_two_pow x 4 (by norm_num)

/-- The erase-block selector tag does not disturb a page index that is a
multiple of 16. -/
theorem or_two_of_dvd (s : Nat) (h : 16 ∣ s) : s ||| 2 = s + 2 := by
  obtain ⟨q, rfl⟩ := h
  have := Nat.mul_add_lt_is_or (show 2 < 2 ^ 4 by norm_num) q
  simpa using this.symm

/-! ## The erase loop -/

theorem erase_loop_acked (efc : Efc) (d : flash_sam_dev_data)
    (hinc : d.erase_len / d.page_size = 16) (hack : ∀ t c, efc.iap_ack t c = 1) :
    ∀ (n s : Nat) (hw : Hw), s + 16 * n ≤ 2 ^ 16 →
      (erase_loop efc d n s hw).1 = 0 ∧
      cmds (erase_loop efc d n s hw).2.trace
        = cmds hw.trace ++ (List.range n).map (fun j => (⟨.EPA, (s + 16 * j) ||| 2⟩ : FcrWord)) ∧
      (erase_loop efc d n s hw).2.mem = hw.mem := by
  intro n
  induction n with
  | zero => intro s hw _; simp [erase_loop]
  | succ n ih =>
    intro s hw hs
    have hstep : (s + 16) % 2 ^ 16 + 16 * n ≤ 2 ^ 16 := by
      rcases Nat.lt_or_ge (s + 16) (2 ^ 16) with h | h
      · rw [Nat.mod_eq_of_lt h]; omega
      · have hn : n = 0 := by omega
        subst hn
        exact Nat.le_of_lt (by simpa using Nat.mod_lt (s + 16) (by norm_num : 2 ^ 16 > 0))
    have hmod : n ≠ 0 → (s + 16) % 2 ^ 16 = s + 16 := by
      intro hn
      exact Nat.mod_eq_of_lt (by omega)
    obtain ⟨h1, h2, h3⟩ := ih ((s + 16) % 2 ^ 16)
      (soc_iap_send_flash_cmd efc hw ⟨.EPA, s ||| 2⟩).2 hstep
    simp only [erase_loop, soc_iap_send_flash_cmd, hack, hinc, ne_eq, not_true_eq_false,
      if_false] at h1 h2 h3 ⊢
    refine ⟨h1, ?_, ?_⟩
    · rw [h2, List.range_succ_eq_map, List.map_cons, List.map_map]
      simp only [Hw.log, cmds_append, cmds, List.append_assoc, List.singleton_append,
        Nat.mul_zero, Nat.add_zero]
      congr 2
      apply List.map_congr_left
      intro j hj
      have hn : n ≠ 0 := by
        rintro rfl
        simp at hj
      simp only [Function.comp, hmod hn]
      congr 2
      omega
    · rw [h3]; rfl


/-! ## C2 -/

/-- C2, as the code has it: on an unlocked device with `page_size = 2 ^ k` and
`erase_len = 16 * page_size` (within 32 bits), whose status register reads
ready and whose controller acknowledges every command with 0x1, for every
`offset` and `len`
that are multiples of `erase_len`, that are not the whole-chip shape
(`offset = 0` and `len = flash_size`) and whose pages have 16-bit indices
(`offset / page_size < 65536` and `offset + len ≤ 65536 * page_size`),
`flash_sam_erase` returns 0 and issues exactly `len / erase_len` commands, all
erase-block (EPA); the `j`-th has as argument the page index
`offset / page_size + 16 * j` combined with the selector tag `0x2`, and the
arguments are strictly increasing. -/
theorem erase_blocks (dev : Device) (hw : Hw) (offset len k : Nat)
    (hps : dev.driver_data.page_size = 2 ^ k)
    (hel : dev.driver_data.erase_len = 16 * dev.driver_data.page_size)
    (helr : dev.driver_data.erase_len < 2 ^ 32)
    (hunl : dev.driver_data.locked = 0)
    (hoff : dev.driver_data.erase_len ∣ offset)
    (hlen : dev.driver_data.erase_len ∣ len)
    (hready : dev.config.regs.EEFC_FSR hw.trace &&& 1 = 1)
    (hack : ∀ t c, dev.config.regs.iap_ack t c = 1)
    (hshape : ¬ (offset = 0 ∧ len = dev.driver_data.flash_size))
    (hp16 : offset / dev.driver_data.page_size < 2 ^ 16)
    (hl16 : offset + len ≤ 2 ^ 16 * dev.driver_data.page_size) :
    (flash_sam_erase dev hw offset len).ret = some 0 ∧
    cmds (flash_sam_erase dev hw offset len).hw.trace
      = cmds hw.trace ++ (List.range (len / dev.driver_data.erase_len)).map
          (fun j => (⟨.EPA, (offset / dev.driver_data.page_size + 16 * j) ||| 2⟩ : FcrWord)) ∧
    List.Pairwise (fun a b => a < b)
      ((List.range (len / dev.driver_data.erase_len)).map
        (fun j => (offset / dev.driver_data.page_size + 16 * j) ||| 2)) := by
  have hpos : 0 < dev.driver_data.page_size := by rw [hps]; exact Nat.two_pow_pos k
  have hp0 : dev.driver_data.page_size ≠ 0 := Nat.pos_iff_ne_zero.1 hpos
  have he0 : dev.driver_data.erase_len ≠ 0 := by rw [hel]; omega
  have hel2 : dev.driver_data.erase_len = 2 ^ (k + 4) := by rw [hel, hps]; ring
  have hk4 : k + 4 < 32 := by
    rw [hel2] at helr
    exact (Nat.pow_lt_pow_iff_right (by norm_num)).1 helr
  have hinc : dev.driver_data.erase_len / dev.driver_data.page_size = 16 := by
    rw [hel]; exact Nat.mul_div_cancel _ hpos
  have hpsdvd : dev.driver_data.page_size ∣ offset :=
    Dvd.dvd.trans ⟨16, by rw [hel]; ring⟩ hoff
  -- the page index of `offset` is a multiple of 16
  obtain ⟨a, ha⟩ := hoff
  obtain ⟨b, hb⟩ := hlen
  have hs : offset / dev.driver_data.page_size = 16 * a := by
    rw [ha, hel, Nat.mul_assoc, Nat.mul_comm 16, Nat.mul_assoc,
      Nat.mul_div_cancel_left _ hpos, Nat.mul_comm]
  have hn : len / dev.driver_data.erase_len = b := by
    rw [hb]
    exact Nat.mul_div_cancel_left _ (by rw [hel]; omega)
  have hsum : offset / dev.driver_data.page_size + 16 * (len / dev.driver_data.erase_len)
      ≤ 2 ^ 16 := by
    rw [hs, hn]
    have h1 : (16 * a + 16 * b) * dev.driver_data.page_size
        ≤ 2 ^ 16 * dev.driver_data.page_size := by
      calc (16 * a + 16 * b) * dev.driver_data.page_size
          = offset + len := by rw [ha, hb, hel]; ring
        _ ≤ _ := hl16
    exact Nat.le_of_mul_le_mul_right h1 hpos
  have hal1 : is_aligned offset dev.driver_data.page_size = true := by
    rw [hps, is_aligned_two_pow _ _ (by omega), ← hps]; exact hpsdvd
  have hal2 : is_aligned offset dev.driver_data.erase_len = true := by
    rw [hel2, is_aligned_two_pow _ _ hk4, ← hel2]; exact ⟨a, ha⟩
  have hal3 : is_aligned len dev.driver_data.erase_len = true := by
    rw [hel2, is_aligned_two_pow _ _ hk4, ← hel2]; exact ⟨b, hb⟩
  have hsp : (offset / dev.driver_data.page_size) % 2 ^ 16
      = offset / dev.driver_data.page_size := Nat.mod_eq_of_lt hp16
  have hnot : ¬ (offset / dev.driver_data.page_size = 0
      ∧ len = dev.driver_data.flash_size) := by
    rintro ⟨h0, hl⟩
    apply hshape
    refine ⟨?_, hl⟩
    have := Nat.div_mul_cancel hpsdvd
    rw [h0] at this
    omega
  obtain ⟨l1, l2, _⟩ := erase_loop_acked dev.config.regs dev.driver_data hinc hack
    (len / dev.driver_data.erase_len) (offset / dev.driver_data.page_size)
    (read_FSR dev.config.regs hw).2 hsum
  refine ⟨?_, ?_, ?_⟩
  · unfold flash_sam_erase
    simp only [hunl, hal1, hal2, hal3, read_FSR, hready, hsp, hp0, he0]
    simpa [read_FSR, hnot] using l1
  · unfold flash_sam_erase
    simp only [hunl, hal1, hal2, hal3, read_FSR, hready, hsp, hp0, he0]
    simpa [read_FSR, Hw.log, cmds_append, cmds, hnot] using l2
  · rw [List.pairwise_map]
    refine List.Pairwise.imp_of_mem ?_ (List.pairwise_lt_range _)
    intro i j _ _ hij
    rw [or_two_of_dvd _ ⟨a + i, by rw [hs]; ring⟩, or_two_of_dvd _ ⟨a + j, by rw [hs]; ring⟩]
    omega


theorem erase_blocks_witness :
    geom2M.page_size = 2 ^ 9 ∧ geom2M.erase_len = 16 * geom2M.page_size ∧
    geom2M.erase_len < 2 ^ 32 ∧ geom2M.locked = 0 ∧
    geom2M.erase_len ∣ 8192 ∧ geom2M.erase_len ∣ 16384 ∧
    (mkDev readyEfc geom2M).config.regs.EEFC_FSR hwErased.trace &&& 1 = 1 ∧
    ¬ (8192 = 0 ∧ 16384 = geom2M.flash_size) ∧
    8192 / geom2M.page_size < 2 ^ 16 ∧ 8192 + 16384 ≤ 2 ^ 16 * geom2M.page_size ∧
    ((flash_sam_erase (mkDev readyEfc geom2M) hwErased 8192 16384).ret = some 0 ∧
    cmds (flash_sam_erase (mkDev readyEfc geom2M) hwErased 8192 16384).hw.trace
      = cmds hwErased.trace ++ (List.range (16384 / (mkDev readyEfc geom2M).driver_data.erase_len)).map
          (fun j => (⟨.EPA,
            (8192 / (mkDev readyEfc geom2M).driver_data.page_size + 16 * j) ||| 2⟩ : FcrWord)) ∧
    List.Pairwise (fun a b => a < b)
      ((List.range (16384 / (mkDev readyEfc geom2M).driver_data.erase_len)).map
        (fun j => (8192 / (mkDev readyEfc geom2M).driver_data.page_size + 16 * j) ||| 2))) :=
  ⟨by decide, by decide, by decide, by decide, by decide, by decide, by decide, by decide,
    by decide, by decide,
    erase_blocks (mkDev readyEfc geom2M) hwErased 8192 16384 9 (by decide) (by decide)
      (by decide) (by decide) (by decide) (by decide) (by decide) (fun _ _ => rfl)
      (by decide) (by decide) (by decide)⟩

/-- C2 as stated fails in two ways.  With `offset = 0` and `len = flash_size`
(both multiples of `erase_len`) a single erase-all command is issued instead of
`len / erase_len = 4` erase-block commands.  On a flash of more than 65536 pages
the `u16_t` page counter wraps: erasing two blocks from page 65520 issues the
arguments 65522 and then 2, which neither follow `offset / page_size + 16 * j`
nor increase. -/
theorem erase_blocks_counterexample :
    (geom32K.erase_len ∣ 0 ∧ geom32K.erase_len ∣ 0x8000 ∧ 0x8000 / geom32K.erase_len = 4 ∧
      cmds (flash_sam_erase (mkDev readyEfc geom32K) hwErased 0 0x8000).hw.trace
        = [⟨.EA, 0⟩]) ∧
    (geom64M.erase_len ∣ 0x1FFE000 ∧ geom64M.erase_len ∣ 0x4000 ∧
      0x1FFE000 + 0x4000 ≤ geom64M.flash_size ∧
      0x1FFE000 / geom64M.page_size = 65520 ∧
      cmds (flash_sam_erase (mkDev readyEfc geom64M) hwErased 0x1FFE000 0x4000).hw.trace
        = [⟨.EPA, 65522⟩, ⟨.EPA, 2⟩] ∧
      ¬ List.Pairwise (fun a b => a < b)
        ((cmds (flash_sam_erase (mkDev readyEfc geom64M) hwErased 0x1FFE000 0x4000).hw.trace).map
          FcrWord.farg)) := by
  decide


/-! ## The write loop -/

theorem write_loop_acked (efc : Efc) (page_size len : Nat)
    (hready : ∀ t, efc.EEFC_FSR t &&& 1 = 1) (hack : ∀ t c, efc.iap_ack t c = 1) :
    ∀ (n i bp : Nat) (data : Nat → Nat) (hw : Hw),
      (write_loop efc page_size len n i bp data hw).1 = 0 ∧
      cmds (write_loop efc page_size len n i bp data hw).2.trace
        = cmds hw.trace ++ (List.range' i n).map (fun p => (⟨.WP, p⟩ : FcrWord)) := by
  intro n
  induction n with
  | zero => intro i bp data hw; simp [write_loop]
  | succ n ih =>
    intro i bp data hw
    simp only [write_loop, read_FSR, soc_iap_send_flash_cmd, hready, hack, ne_eq,
      not_true_eq_false, if_false]
    refine ⟨(ih _ _ _ _).1, ?_⟩
    rw [(ih _ _ _ _).2]
    simp [Hw.log, cmds_append, cmds, List.range']

/-- For a non-empty range ending on a 16-byte boundary, subtracting 4 or 1 from
the end gives the same page, when `page_size` is a power of two of at least 16. -/
theorem last_page_sub_four (m k : Nat) (hm : 16 ∣ m) (hpos : 0 < m) (hk : 4 ≤ k) :
    (m - 4) / 2 ^ k = (m - 1) / 2 ^ k := by
  obtain ⟨q, rfl⟩ := hm
  obtain ⟨j, rfl⟩ : ∃ j, k = 4 + j := ⟨k - 4, by omega⟩
  have e : (2 : Nat) ^ (4 + j) = 16 * 2 ^ j := by rw [Nat.pow_add]
  rw [e, ← Nat.div_div_eq_div_mul, ← Nat.div_div_eq_div_mul]
  congr 1
  omega

/-- The pages from that of `offset` to that of the last byte are exactly the
pages holding a byte of `[offset, offset + len)`. -/
theorem mem_pages_iff (offset len ps p : Nat) (hps : 0 < ps) (hlen : 0 < len) :
    p ∈ List.range' (offset / ps) ((offset + len - 1) / ps + 1 - offset / ps)
      ↔ ∃ b, offset ≤ b ∧ b < offset + len ∧ b / ps = p := by
  have hle : offset / ps ≤ (offset + len - 1) / ps := Nat.div_le_div_right (by omega)
  rw [List.mem_range'_1]
  constructor
  · rintro ⟨h1, h2⟩
    have h3 : p ≤ (offset + len - 1) / ps := by omega
    have h4 : p * ps ≤ offset + len - 1 := (Nat.le_div_iff_mul_le hps).1 h3
    rcases Nat.eq_or_lt_of_le h1 with h | h
    · exact ⟨offset, le_refl _, by omega, h⟩
    · refine ⟨p * ps, ?_, by omega, Nat.mul_div_cancel _ hps⟩
      have : offset < p * ps := (Nat.div_lt_iff_lt_mul hps).1 h
      omega
  · rintro ⟨b, h1, h2, rfl⟩
    have h3 : b / ps ≤ (offset + len - 1) / ps := Nat.div_le_div_right (by omega)
    have h4 : offset / ps ≤ b / ps := Nat.div_le_div_right h1
    omega


/-! ## C3 -/

theorem write_end_page_eq (d : flash_sam_dev_data) (offset len k : Nat)
    (hoff : 16 ∣ offset) (hlen : 16 ∣ len) (hpos : 0 < len)
    (hfit : offset + len ≤ d.flash_size) (hps : d.page_size = 2 ^ k) (hk : 4 ≤ k)
    (hfs : d.flash_size < 2 ^ 32) (h16 : offset + len ≤ 2 ^ 16 * d.page_size) :
    write_end_page d offset len = (offset + len - 1) / d.page_size := by
  have hpp : 0 < d.page_size := by rw [hps]; exact Nat.two_pow_pos k
  have hl16 : 16 ≤ len := Nat.le_of_dvd hpos hlen
  have h32 : (2 : Nat) ^ 32 = 4294967296 := by norm_num
  have e1 : (len + 2 ^ 32 - 4) % 2 ^ 32 = len - 4 := by
    have : len + 2 ^ 32 - 4 = (len - 4) + 2 ^ 32 := by omega
    rw [this, Nat.add_mod_right, Nat.mod_eq_of_lt (by omega)]
  have e2 : (offset + (len - 4)) % 2 ^ 32 = offset + len - 4 := by
    rw [Nat.mod_eq_of_lt (by omega)]; omega
  have e3 : (offset + len - 4) / d.page_size < 2 ^ 16 := by
    rw [Nat.div_lt_iff_lt_mul hpp]; omega
  unfold write_end_page
  rw [e1, e2, Nat.mod_eq_of_lt e3, hps]
  exact last_page_sub_four (offset + len) k (Dvd.dvd.add hoff hlen) (by omega) hk

/-- C3, as the code has it: for every accepted `flash_sam_write` (device
unlocked, `offset` and `len` multiples of 16, `len > 0`,
`offset + len ≤ flash_size`, `page_size = 2 ^ k` with `k ≥ 4`) whose byte range
lies within the first 65536 pages (`offset + len ≤ 65536 * page_size`, so that
the indices of the pages written fit the 16-bit page variables), during which
the controller always reads ready and acknowledges with 0x1, the call returns
0 and the commands issued are exactly
the write-page commands for the pages `offset / page_size` up to
`(offset + len - 1) / page_size`, in increasing order, each with its page
index as argument; these are exactly the pages holding a byte of
`[offset, offset + len)`; and the last page the code computes, from
`offset + (len - 4)`, is the page of the last byte, `offset + len - 1`. -/
theorem write_pages (dev : Device) (hw : Hw) (offset : Nat) (data : Nat → Nat)
    (len k : Nat)
    (hunl : dev.driver_data.locked = 0)
    (hoff : 16 ∣ offset) (hlen : 16 ∣ len) (hpos : 0 < len)
    (hfit : offset + len ≤ dev.driver_data.flash_size)
    (hps : dev.driver_data.page_size = 2 ^ k) (hk : 4 ≤ k)
    (hfs : dev.driver_data.flash_size < 2 ^ 32)
    (h16 : offset + len ≤ 2 ^ 16 * dev.driver_data.page_size)
    (hready : ∀ t, dev.config.regs.EEFC_FSR t &&& 1 = 1)
    (hack : ∀ t c, dev.config.regs.iap_ack t c = 1) :
    (flash_sam_write dev hw offset data len).ret = some 0 ∧
    cmds (flash_sam_write dev hw offset data len).hw.trace
      = cmds hw.trace ++
        (List.range' (offset / dev.driver_data.page_size)
          ((offset + len - 1) / dev.driver_data.page_size + 1
            - offset / dev.driver_data.page_size)).map (fun p => (⟨.WP, p⟩ : FcrWord)) ∧
    (∀ p, p ∈ List.range' (offset / dev.driver_data.page_size)
          ((offset + len - 1) / dev.driver_data.page_size + 1
            - offset / dev.driver_data.page_size)
        ↔ ∃ b, offset ≤ b ∧ b < offset + len ∧ b / dev.driver_data.page_size = p) ∧
    write_end_page dev.driver_data offset len
      = (offset + len - 1) / dev.driver_data.page_size := by
  have hpp : 0 < dev.driver_data.page_size := by rw [hps]; exact Nat.two_pow_pos k
  have hp0 : dev.driver_data.page_size ≠ 0 := Nat.pos_iff_ne_zero.1 hpp
  have hend := write_end_page_eq dev.driver_data offset len k hoff hlen hpos hfit hps hk hfs h16
  have hstart : write_start_page dev.driver_data offset = offset / dev.driver_data.page_size := by
    unfold write_start_page
    apply Nat.mod_eq_of_lt
    rw [Nat.div_lt_iff_lt_mul hpp]; omega
  have ha1 : is_aligned len 16 = true := (is_aligned_16 len).2 hlen
  have ha2 : is_aligned offset 16 = true := (is_aligned_16 offset).2 hoff
  have hsum : ¬ (offset + len) % 2 ^ 32 > dev.driver_data.flash_size := by
    have := Nat.mod_le (offset + len) (2 ^ 32)
    omega
  have hl := write_loop_acked dev.config.regs dev.driver_data.page_size len hready hack
    ((offset + len - 1) / dev.driver_data.page_size + 1 - offset / dev.driver_data.page_size)
    (offset / dev.driver_data.page_size) ((dev.config.flash_offset + offset) % 2 ^ 32) data hw
  refine ⟨?_, ?_, fun p => mem_pages_iff offset len _ p hpp hpos, hend⟩
  · unfold flash_sam_write
    simp only [hunl, ha1, ha2, hsum, hstart, hend, hp0]
    simpa using hl.1
  · unfold flash_sam_write
    simp only [hunl, ha1, ha2, hsum, hstart, hend, hp0]
    simpa using hl.2

theorem write_pages_witness :
    geom64M.locked = 0 ∧ 16 ∣ 496 ∧ 16 ∣ 1056 ∧ 0 < 1056 ∧ 496 + 1056 ≤ geom64M.flash_size ∧
    geom64M.page_size = 2 ^ 9 ∧ 4 ≤ 9 ∧ geom64M.flash_size < 2 ^ 32 ∧
    496 + 1056 ≤ 2 ^ 16 * geom64M.page_size ∧
    ((flash_sam_write (mkDev readyEfc geom64M) hwErased 496 rampData 1056).ret = some 0 ∧
    cmds (flash_sam_write (mkDev readyEfc geom64M) hwErased 496 rampData 1056).hw.trace
      = cmds hwErased.trace ++
        (List.range' (496 / (mkDev readyEfc geom64M).driver_data.page_size)
          ((496 + 1056 - 1) / (mkDev readyEfc geom64M).driver_data.page_size + 1
            - 496 / (mkDev readyEfc geom64M).driver_data.page_size)).map
          (fun p => (⟨.WP, p⟩ : FcrWord)) ∧
    (∀ p, p ∈ List.range' (496 / (mkDev readyEfc geom64M).driver_data.page_size)
          ((496 + 1056 - 1) / (mkDev readyEfc geom64M).driver_data.page_size + 1
            - 496 / (mkDev readyEfc geom64M).driver_data.page_size)
        ↔ ∃ b, 496 ≤ b ∧ b < 496 + 1056 ∧
            b / (mkDev readyEfc geom64M).driver_data.page_size = p) ∧
    write_end_page (mkDev readyEfc geom64M).driver_data 496 1056
      = (496 + 1056 - 1) / (mkDev readyEfc geom64M).driver_data.page_size) :=
  ⟨by decide, by decide, by decide, by decide, by decide, by decide, by decide, by decide,
    by decide,
    write_pages (mkDev readyEfc geom64M) hwErased 496 rampData 1056 9 (by decide) (by decide)
      (by decide) (by decide) (by decide) (by decide) (by decide) (by decide) (by decide)
      (fun _ => (by decide : (1 &&& 1 : Nat) = 1)) (fun _ _ => rfl)⟩

/-- C3 as stated fails when the range reaches beyond page 65535: an accepted
write of 32 bytes over the boundary between pages 65535 and 65536 has start page
65535 and, in the 16-bit `end_page`, last page 0, so the loop body never runs:
the call returns 0 and issues no write-page command, although two pages hold
bytes of the range. -/
theorem write_pages_counterexample :
    geom64M.locked = 0 ∧ 16 ∣ 0x1FFFFF0 ∧ 16 ∣ 32 ∧ 0 < 32 ∧
    0x1FFFFF0 + 32 ≤ geom64M.flash_size ∧ geom64M.page_size = 2 ^ 9 ∧
    0x1FFFFF0 / geom64M.page_size = 65535 ∧
    (0x1FFFFF0 + 32 - 1) / geom64M.page_size = 65536 ∧
    write_end_page geom64M 0x1FFFFF0 32 = 0 ∧
    0x1FFFFF0 + 32 > 2 ^ 16 * geom64M.page_size ∧
    (flash_sam_write (mkDev readyEfc geom64M) hwErased 0x1FFFFF0 rampData 32).ret = some 0 ∧
    cmds (flash_sam_write (mkDev readyEfc geom64M) hwErased 0x1FFFFF0 rampData 32).hw.trace
      = [] := by
  decide


/-! ## C4 -/

/-- C4 at a failing input: a 32-byte write at offset 496 with 512-byte pages
covers bytes of pages 0 and 1.  Two write-page commands are issued (0 then 1)
and the bytes of `[base + 496, base + 528)` receive the caller's data, but the
second loop iteration copies 32 bytes again (`len` is never reduced), reading
bytes 32..63 past the end of the caller's 32-byte buffer and storing them at
`base + 528 .. base + 559`, outside the range being written. -/
theorem write_two_pages_overrun :
    (flash_sam_write (mkDev readyEfc geom2M) hwErased 496 rampData 32).ret = some 0 ∧
    cmds (flash_sam_write (mkDev readyEfc geom2M) hwErased 496 rampData 32).hw.trace
      = [⟨.WP, 0⟩, ⟨.WP, 1⟩] ∧
    (∀ j < 32,
      (flash_sam_write (mkDev readyEfc geom2M) hwErased 496 rampData 32).hw.mem
        (0x400000 + 496 + j) = rampData j) ∧
    hwErased.mem (0x400000 + 528) = 0xFF ∧
    (flash_sam_write (mkDev readyEfc geom2M) hwErased 496 rampData 32).hw.mem
      (0x400000 + 528) = rampData 32 ∧
    (∀ j < 32,
      (flash_sam_write (mkDev readyEfc geom2M) hwErased 496 rampData 32).hw.mem
        (0x400000 + 528 + j) = rampData (32 + j)) := by
  decide

/-! ## C5 -/

/-- C5, as the code has it: for every geometry with `page_size ≠ 0`, on an
unlocked device whose status register reads ready, `flash_sam_erase` with
`offset = 0` and `len = flash_size` adds to the trace the status read and
exactly one command, erase-all (EA) with argument 0; no erase-block command is
issued and memory is untouched.  It returns 0 when the acknowledgment is 0x1
and `-EIO` for every other acknowledgment. -/
theorem erase_whole_chip (dev : Device) (hw : Hw)
    (hunl : dev.driver_data.locked = 0)
    (hps : dev.driver_data.page_size ≠ 0)
    (hready : dev.config.regs.EEFC_FSR hw.trace &&& 1 = 1) :
    (flash_sam_erase dev hw 0 dev.driver_data.flash_size).hw.trace
      = hw.trace ++ [.fsrRead (dev.config.regs.EEFC_FSR hw.trace),
          .iapCmd ⟨.EA, 0⟩
            (dev.config.regs.iap_ack
              (hw.trace ++ [.fsrRead (dev.config.regs.EEFC_FSR hw.trace)]) ⟨.EA, 0⟩)] ∧
    cmds (flash_sam_erase dev hw 0 dev.driver_data.flash_size).hw.trace
      = cmds hw.trace ++ [⟨.EA, 0⟩] ∧
    (flash_sam_erase dev hw 0 dev.driver_data.flash_size).hw.mem = hw.mem ∧
    (flash_sam_erase dev hw 0 dev.driver_data.flash_size).ret
      = some (if dev.config.regs.iap_ack
            (hw.trace ++ [.fsrRead (dev.config.regs.EEFC_FSR hw.trace)]) ⟨.EA, 0⟩ = 1
          then 0 else - EIO) := by
  have hal : is_aligned 0 dev.driver_data.page_size = true := by
    unfold is_aligned; simp
  unfold flash_sam_erase
  simp only [hunl, hal, hps, read_FSR, soc_iap_send_flash_cmd, hready, Hw.log, Nat.zero_div,
    Nat.zero_mod]
  by_cases hack : dev.config.regs.iap_ack
      (hw.trace ++ [.fsrRead (dev.config.regs.EEFC_FSR hw.trace)]) ⟨.EA, 0⟩ = 1
  · simp [hack, cmds_append, cmds]
  · simp [hack, cmds_append, cmds]

theorem erase_whole_chip_witness :
    geom2M.locked = 0 ∧ geom2M.page_size ≠ 0 ∧
    ((flash_sam_erase (mkDev nackEfc geom2M) hwErased 0
        (mkDev nackEfc geom2M).driver_data.flash_size).hw.trace
      = hwErased.trace ++ [.fsrRead ((mkDev nackEfc geom2M).config.regs.EEFC_FSR hwErased.trace),
          .iapCmd ⟨.EA, 0⟩
            ((mkDev nackEfc geom2M).config.regs.iap_ack
              (hwErased.trace ++
                [.fsrRead ((mkDev nackEfc geom2M).config.regs.EEFC_FSR hwErased.trace)])
              ⟨.EA, 0⟩)] ∧
    cmds (flash_sam_erase (mkDev nackEfc geom2M) hwErased 0
        (mkDev nackEfc geom2M).driver_data.flash_size).hw.trace
      = cmds hwErased.trace ++ [⟨.EA, 0⟩] ∧
    (flash_sam_erase (mkDev nackEfc geom2M) hwErased 0
        (mkDev nackEfc geom2M).driver_data.flash_size).hw.mem = hwErased.mem ∧
    (flash_sam_erase (mkDev nackEfc geom2M) hwErased 0
        (mkDev nackEfc geom2M).driver_data.flash_size).ret
      = some (if (mkDev nackEfc geom2M).config.regs.iap_ack
            (hwErased.trace ++
              [.fsrRead ((mkDev nackEfc geom2M).config.regs.EEFC_FSR hwErased.trace)])
            ⟨.EA, 0⟩ = 1
          then 0 else - EIO)) :=
  ⟨by decide, by decide,
    erase_whole_chip (mkDev nackEfc geom2M) hwErased (by decide) (by decide) (by decide)⟩

/-- C5 as stated fails for a geometry with `page_size = 0`: on an unlocked
device with a ready controller that acknowledges every command,
`flash_sam_erase` with `offset = 0` and `len = flash_size` passes the alignment
and ready tests and then divides `offset` by `page_size`; the call does not
return and no command is issued. -/
theorem erase_whole_chip_counterexample :
    (mkDev readyEfc geomPage0).driver_data.locked = 0 ∧
    (mkDev readyEfc geomPage0).config.regs.EEFC_FSR hwErased.trace &&& 1 = 1 ∧
    (flash_sam_erase (mkDev readyEfc geomPage0) hwErased 0
      (mkDev readyEfc geomPage0).driver_data.flash_size).ret = none ∧
    cmds (flash_sam_erase (mkDev readyEfc geomPage0) hwErased 0
      (mkDev readyEfc geomPage0).driver_data.flash_size).hw.trace = [] := by
  decide

/-! ## C6 -/

/-- C6: on an unlocked device, if `offset` is not a multiple of 16 or the data
length is not a multiple of 16, `flash_sam_write` returns `-EINVAL` and leaves
the device record and the hardware exactly as they were: no controller access,
no command, nothing copied into the latch buffer. -/
theorem write_unaligned (dev : Device) (hw : Hw) (offset : Nat) (data : Nat → Nat)
    (len : Nat) (hunl : dev.driver_data.locked = 0)
    (h : ¬ 16 ∣ offset ∨ ¬ 16 ∣ len) :
    flash_sam_write dev hw offset data len = ⟨some (- EINVAL), dev, hw⟩ := by
  have hb : (!is_aligned len 16 || !is_aligned offset 16) = true := by
    rcases h with h | h
    · have : is_aligned offset 16 = false := by
        rw [← Bool.not_eq_true, is_aligned_16]; exact h
      simp [this]
    · have : is_aligned len 16 = false := by
        rw [← Bool.not_eq_true, is_aligned_16]; exact h
      simp [this]
  unfold flash_sam_write
  simp only [hunl, hb]
  simp

theorem write_unaligned_witness :
    geom2M.locked = 0 ∧ (¬ 16 ∣ 520 ∨ ¬ 16 ∣ 32) ∧
    flash_sam_write (mkDev readyEfc geom2M) hwErased 520 rampData 32
      = ⟨some (- EINVAL), mkDev readyEfc geom2M, hwErased⟩ :=
  ⟨by decide, by decide,
    write_unaligned (mkDev readyEfc geom2M) hwErased 520 rampData 32 (by decide) (by decide)⟩

/-! ## C7 -/

/-- C7: on an unlocked device whose `page_size` is a power of two (a `u32_t`,
so `2 ^ k` with `k < 32`), for every `len` and every `offset` that is not a
multiple of `page_size`, `flash_sam_erase` returns `-EINVAL` and leaves the
device record and the hardware exactly as they were: the status register is
not even read and no command is issued, whatever the controller would answer. -/
theorem erase_unaligned_offset (dev : Device) (hw : Hw) (offset len k : Nat)
    (hunl : dev.driver_data.locked = 0)
    (hps : dev.driver_data.page_size = 2 ^ k) (hk : k < 32)
    (h : ¬ dev.driver_data.page_size ∣ offset) :
    flash_sam_erase dev hw offset len = ⟨some (- EINVAL), dev, hw⟩ := by
  have hal : is_aligned offset dev.driver_data.page_size = false := by
    rw [← Bool.not_eq_true, hps, is_aligned_two_pow _ _ hk, ← hps]; exact h
  unfold flash_sam_erase
  simp only [hunl, hal]
  simp

theorem erase_unaligned_offset_witness :
    geom2M.locked = 0 ∧ geom2M.page_size = 2 ^ 9 ∧ 9 < 32 ∧ ¬ geom2M.page_size ∣ 8200 ∧
    flash_sam_erase (mkDev busyEfc geom2M) hwErased 8200 8192
      = ⟨some (- EINVAL), mkDev busyEfc geom2M, hwErased⟩ :=
  ⟨by decide, by decide, by decide, by decide,
    erase_unaligned_offset (mkDev busyEfc geom2M) hwErased 8200 8192 9 (by decide) (by decide)
      (by decide) (by decide)⟩


/-! ## C8 -/

/-- C8: for every `offset` and `len` with `offset + len ≤ flash_size`,
`flash_sam_read` returns 0 and the caller's buffer holds in its first `len`
bytes exactly the bytes at the (32-bit) addresses `base + offset + i`, the rest
of the buffer being untouched; the device record and the hardware (trace and
memory) are unchanged, so no controller register is accessed and no command
issued; and the return value and the bytes delivered are the same for every
value of the `locked` flag and every controller. -/
theorem read_bytes (dev : Device) (hw : Hw) (offset : Nat) (data : Nat → Nat) (len : Nat)
    (hfit : offset + len ≤ dev.driver_data.flash_size) :
    (flash_sam_read dev hw offset data len).ret = 0 ∧
    (∀ i, i < len → (flash_sam_read dev hw offset data len).data i
        = hw.mem ((dev.config.flash_offset + offset + i) % 2 ^ 32)) ∧
    (∀ i, len ≤ i → (flash_sam_read dev hw offset data len).data i = data i) ∧
    (flash_sam_read dev hw offset data len).dev = dev ∧
    (flash_sam_read dev hw offset data len).hw = hw ∧
    (∀ (l : Nat) (efc : Efc),
      (flash_sam_read
          ⟨{ dev.config with regs := efc }, { dev.driver_data with locked := l }⟩
          hw offset data len).ret
        = (flash_sam_read dev hw offset data len).ret ∧
      (flash_sam_read
          ⟨{ dev.config with regs := efc }, { dev.driver_data with locked := l }⟩
          hw offset data len).data
        = (flash_sam_read dev hw offset data len).data) := by
  have hsum : ¬ (offset + len) % 2 ^ 32 > dev.driver_data.flash_size := by
    have := Nat.mod_le (offset + len) (2 ^ 32)
    omega
  have hout : flash_sam_read dev hw offset data len
      = ⟨0, dev, hw, fun i =>
          if i < len then hw.load ((offset + dev.config.flash_offset) % 2 ^ 32 + i)
          else data i⟩ := by
    unfold flash_sam_read
    simp only [hsum, if_false]
  refine ⟨by rw [hout], ?_, ?_, by rw [hout], by rw [hout], fun l efc => ?_⟩
  · intro i hi
    rw [hout]
    simp only [hi, if_true, Hw.load]
    congr 1
    rw [Nat.mod_add_mod, Nat.add_comm offset]
  · intro i hi
    rw [hout]
    simp only [Nat.not_lt.2 hi, if_false]
  · rw [hout]
    unfold flash_sam_read
    simp only [hsum, if_false, and_self]

theorem read_bytes_witness :
    512 + 64 ≤ (mkDev busyEfc geom2M).driver_data.flash_size ∧
    ((flash_sam_read (mkDev busyEfc geom2M) hwErased 512 rampData 64).ret = 0 ∧
    (∀ i, i < 64 → (flash_sam_read (mkDev busyEfc geom2M) hwErased 512 rampData 64).data i
        = hwErased.mem (((mkDev busyEfc geom2M).config.flash_offset + 512 + i) % 2 ^ 32)) ∧
    (∀ i, 64 ≤ i →
      (flash_sam_read (mkDev busyEfc geom2M) hwErased 512 rampData 64).data i = rampData i) ∧
    (flash_sam_read (mkDev busyEfc geom2M) hwErased 512 rampData 64).dev
      = mkDev busyEfc geom2M ∧
    (flash_sam_read (mkDev busyEfc geom2M) hwErased 512 rampData 64).hw = hwErased ∧
    (∀ (l : Nat) (efc : Efc),
      (flash_sam_read
          ⟨{ (mkDev busyEfc geom2M).config with regs := efc },
            { (mkDev busyEfc geom2M).driver_data with locked := l }⟩
          hwErased 512 rampData 64).ret
        = (flash_sam_read (mkDev busyEfc geom2M) hwErased 512 rampData 64).ret ∧
      (flash_sam_read
          ⟨{ (mkDev busyEfc geom2M).config with regs := efc },
            { (mkDev busyEfc geom2M).driver_data with locked := l }⟩
          hwErased 512 rampData 64).data
        = (flash_sam_read (mkDev busyEfc geom2M) hwErased 512 rampData 64).data)) :=
  ⟨by decide, read_bytes (mkDev busyEfc geom2M) hwErased 512 rampData 64 (by decide)⟩

/-! ## C9 -/

theorem clb_loop_cmds (efc : Efc) (ppl : Nat) :
    ∀ (n i : Nat) (hw : Hw),
      cmds (clb_loop efc ppl n i hw).trace
        = cmds hw.trace ++
          (List.range' i n).map (fun j => (⟨.CLB, (j * ppl) % 2 ^ 32⟩ : FcrWord)) ∧
      (clb_loop efc ppl n i hw).mem = hw.mem := by
  intro n
  induction n with
  | zero => intro i hw; simp [clb_loop]
  | succ n ih =>
    intro i hw
    simp only [clb_loop, soc_iap_send_flash_cmd]
    refine ⟨?_, ?_⟩
    · rw [(ih _ _).1]
      simp [Hw.log, cmds_append, cmds, List.range']
    · rw [(ih _ _).2]; rfl

/-- The clear-lock-bit argument never overflows 32 bits. -/
theorem clb_arg_lt (fs L ps i : Nat) (hfs : fs < 2 ^ 32) (hi : i < L) :
    i * (fs / L / ps) < 2 ^ 32 := by
  have h1 : fs / L / ps ≤ fs / L := Nat.div_le_self _ _
  have h2 : i * (fs / L / ps) ≤ L * (fs / L) :=
    Nat.mul_le_mul (Nat.le_of_lt hi) h1
  have h3 : L * (fs / L) ≤ fs := Nat.mul_div_le fs L
  omega

/-- C9, as the code has it: on a device with `page_size ≠ 0`, when the status
register reads ready, for both values of `enable`: if the lock-status probe
(the result register read after the get-lock-bits command) is non-zero, the
clear-lock-bit (CLB) commands `flash_sam_write_protection` issues are exactly
`lock_bits_number` in number, the `i`-th (from 0) with argument
`i * pages_per_lock` where
`pages_per_lock = (flash_size / lock_bits_number) / page_size`; if the probe
reads zero it issues no clear-lock-bit command.  Where `lock_bits_number ≠ 0`
the whole command sequence is the get-lock-bits command followed by these
clear-lock-bit commands (with `lock_bits_number = 0` the call stops at its
first division and issues nothing).  The hardware after the call (trace and
memory) is the same for both values of `enable`. -/
theorem write_protection_clears_locks (dev : Device) (hw : Hw) (enable : Bool)
    (hfs : dev.driver_data.flash_size < 2 ^ 32)
    (hP : dev.driver_data.page_size ≠ 0)
    (hready : dev.config.regs.EEFC_FSR hw.trace &&& 1 = 1) :
    (∃ new, cmds (flash_sam_write_protection dev hw enable).hw.trace = cmds hw.trace ++ new ∧
      (lock_status dev hw ≠ 0 →
        new.filter (fun c => decide (c.fcmd = Fcmd.CLB))
          = (List.range dev.driver_data.lock_bits_number).map
              (fun i => (⟨.CLB, i * (dev.driver_data.flash_size
                / dev.driver_data.lock_bits_number / dev.driver_data.page_size)⟩ : FcrWord)) ∧
        (dev.driver_data.lock_bits_number ≠ 0 →
          new = ⟨.GLB, 0⟩ ::
            (List.range dev.driver_data.lock_bits_number).map
              (fun i => (⟨.CLB, i * (dev.driver_data.flash_size
                / dev.driver_data.lock_bits_number / dev.driver_data.page_size)⟩ : FcrWord)))) ∧
      (lock_status dev hw = 0 →
        new.filter (fun c => decide (c.fcmd = Fcmd.CLB)) = [] ∧
        (dev.driver_data.lock_bits_number ≠ 0 → new = [⟨.GLB, 0⟩]))) ∧
    (flash_sam_write_protection dev hw enable).hw
      = (flash_sam_write_protection dev hw (!enable)).hw := by
  refine ⟨?_, ?_⟩
  · by_cases hL : dev.driver_data.lock_bits_number = 0
    · refine ⟨[], ?_, fun _ => ⟨by simp [hL], fun h => absurd hL h⟩,
        fun _ => ⟨rfl, fun h => absurd hL h⟩⟩
      unfold flash_sam_write_protection
      simp [hL]
    · by_cases hst : lock_status dev hw = 0
      · refine ⟨[⟨.GLB, 0⟩], ?_, fun h => absurd hst h, fun _ => ⟨by decide, fun _ => rfl⟩⟩
        unfold lock_status at hst
        simp only [read_FSR] at hst
        unfold flash_sam_write_protection
        simp only [hL, hP, read_FSR, hready, ne_eq, not_true_eq_false, if_false]
        rw [if_neg (not_not.2 hst)]
        simp [read_FRR, soc_iap_send_flash_cmd, Hw.log, cmds_append, cmds]
      · refine ⟨⟨.GLB, 0⟩ ::
            (List.range dev.driver_data.lock_bits_number).map
              (fun i => (⟨.CLB, i * (dev.driver_data.flash_size
                / dev.driver_data.lock_bits_number / dev.driver_data.page_size)⟩ : FcrWord)),
          ?_, fun _ => ⟨?_, fun _ => rfl⟩, fun h => absurd h hst⟩
        · unfold lock_status at hst
          simp only [read_FSR] at hst
          unfold flash_sam_write_protection
          simp only [hL, hP, read_FSR, hready, ne_eq, not_true_eq_false, if_false]
          rw [if_pos hst, (clb_loop_cmds _ _ _ _ _).1]
          simp only [read_FRR, soc_iap_send_flash_cmd, Hw.log, cmds_append, cmds,
            List.append_assoc, List.singleton_append, List.nil_append, List.append_nil,
            List.range_eq_range']
          congr 2
          apply List.map_congr_left
          intro i hi
          rw [List.mem_range'_1] at hi
          rw [Nat.mod_eq_of_lt (clb_arg_lt _ _ _ _ hfs (by omega))]
        · rw [List.filter_cons_of_neg (by decide), List.filter_eq_self]
          intro c hc
          obtain ⟨i, _, rfl⟩ := List.mem_map.1 hc
          rfl
  · unfold flash_sam_write_protection
    simp only []
    split_ifs <;> rfl

theorem write_protection_clears_locks_witness :
    (mkDev readyEfc geom32K).driver_data.flash_size < 2 ^ 32 ∧
    (mkDev readyEfc geom32K).driver_data.page_size ≠ 0 ∧
    (mkDev readyEfc geom32K).config.regs.EEFC_FSR hwErased.trace &&& 1 = 1 ∧
    ((∃ new,
      cmds (flash_sam_write_protection (mkDev readyEfc geom32K) hwErased true).hw.trace
        = cmds hwErased.trace ++ new ∧
      (lock_status (mkDev readyEfc geom32K) hwErased ≠ 0 →
        new.filter (fun c => decide (c.fcmd = Fcmd.CLB))
          = (List.range (mkDev readyEfc geom32K).driver_data.lock_bits_number).map
              (fun i => (⟨.CLB, i * ((mkDev readyEfc geom32K).driver_data.flash_size
                / (mkDev readyEfc geom32K).driver_data.lock_bits_number
                / (mkDev readyEfc geom32K).driver_data.page_size)⟩ : FcrWord)) ∧
        ((mkDev readyEfc geom32K).driver_data.lock_bits_number ≠ 0 →
          new = ⟨.GLB, 0⟩ ::
            (List.range (mkDev readyEfc geom32K).driver_data.lock_bits_number).map
              (fun i => (⟨.CLB, i * ((mkDev readyEfc geom32K).driver_data.flash_size
                / (mkDev readyEfc geom32K).driver_data.lock_bits_number
                / (mkDev readyEfc geom32K).driver_data.page_size)⟩ : FcrWord)))) ∧
      (lock_status (mkDev readyEfc geom32K) hwErased = 0 →
        new.filter (fun c => decide (c.fcmd = Fcmd.CLB)) = [] ∧
        ((mkDev readyEfc geom32K).driver_data.lock_bits_number ≠ 0 → new = [⟨.GLB, 0⟩]))) ∧
    (flash_sam_write_protection (mkDev readyEfc geom32K) hwErased true).hw
      = (flash_sam_write_protection (mkDev readyEfc geom32K) hwErased (!true)).hw) ∧
    lock_status (mkDev readyEfc geom32K) hwErased ≠ 0 ∧
    cmds (flash_sam_write_protection (mkDev readyEfc geom32K) hwErased true).hw.trace
      = [⟨.GLB, 0⟩, ⟨.CLB, 0⟩, ⟨.CLB, 16⟩, ⟨.CLB, 32⟩, ⟨.CLB, 48⟩] :=
  ⟨by decide, by decide, by decide,
    write_protection_clears_locks (mkDev readyEfc geom32K) hwErased true (by decide)
      (by decide) (by decide),
    by decide, by decide⟩

/-- C9 as stated fails on a device with `page_size = 0`: the controller reads
ready and would report a non-zero lock status, and `lock_bits_number` is 128,
but the call stops at the division by `page_size`, before the ready test: it
does not return and issues no command at all, so none of the 128
clear-lock-bit commands. -/
theorem write_protection_clears_locks_counterexample :
    (mkDev readyEfc geomPage0).driver_data.lock_bits_number = 128 ∧
    (mkDev readyEfc geomPage0).config.regs.EEFC_FSR hwErased.trace &&& 1 = 1 ∧
    lock_status (mkDev readyEfc geomPage0) hwErased ≠ 0 ∧
    (flash_sam_write_protection (mkDev readyEfc geomPage0) hwErased true).ret = none ∧
    cmds (flash_sam_write_protection (mkDev readyEfc geomPage0) hwErased true).hw.trace
      = [] := by
  decide

/-! ## C10 -/

/-- C10 at a failing input: with `flash_size = 0x200000`, `offset = 512` and
`len = 0xFFFFFE10` (both 32-bit values, both multiples of 16) the true sum
`offset + len = 2 ^ 32 + 16` exceeds `flash_size`, but the 32-bit sum wraps to
16, the bounds checks pass, and `flash_sam_read` and `flash_sam_write` both
return 0 instead of `-EINVAL`. -/
theorem bounds_check_wraps :
    512 < 2 ^ 32 ∧ 0xFFFFFE10 < 2 ^ 32 ∧
    512 + 0xFFFFFE10 > (mkDev readyEfc geom2M).driver_data.flash_size ∧
    (512 + 0xFFFFFE10) % 2 ^ 32 = 16 ∧
    (flash_sam_read (mkDev readyEfc geom2M) hwErased 512 rampData 0xFFFFFE10).ret = 0 ∧
    (flash_sam_write (mkDev readyEfc geom2M) hwErased 512 rampData 0xFFFFFE10).ret
      = some 0 := by
  decide


/-! ## C11 -/

/-- C11 at a failing input: on a 2 MiB flash of 512-byte pages,
`flash_sam_erase` with `offset = 0x2000000` (page 65536, beyond the flash) and
`len = flash_size` passes the alignment test, the 16-bit `start_page` reads 0,
and the erase-all command is issued although `offset ≠ 0`. -/
theorem erase_all_at_nonzero_offset :
    (0x2000000 : Nat) ≠ 0 ∧ 0x2000000 < 2 ^ 32 ∧
    0x2000000 / (mkDev readyEfc geom2M).driver_data.page_size = 65536 ∧
    (flash_sam_erase (mkDev readyEfc geom2M) hwErased 0x2000000
      (mkDev readyEfc geom2M).driver_data.flash_size).ret = some 0 ∧
    cmds (flash_sam_erase (mkDev readyEfc geom2M) hwErased 0x2000000
      (mkDev readyEfc geom2M).driver_data.flash_size).hw.trace = [⟨.EA, 0⟩] := by
  decide

/-! ## C12 -/

/-- C12 at a failing input: with 32-byte pages, a 48-byte write at offset 0
covers pages 0 and 1.  The first iteration copies 32 bytes; 16 bytes remain,
but the second iteration copies 32 bytes again (`len > page_size` still holds
because `len` is never reduced): 64 bytes are copied in all, bytes 48..63 are
read past the end of the caller's 48-byte buffer and stored at
`base + 48 .. base + 63`, outside `[base + offset, base + offset + len)`. -/
theorem write_copies_past_len :
    (flash_sam_write (mkDev readyEfc geomP32) hwErased 0 rampData 48).ret = some 0 ∧
    cmds (flash_sam_write (mkDev readyEfc geomP32) hwErased 0 rampData 48).hw.trace
      = [⟨.WP, 0⟩, ⟨.WP, 1⟩] ∧
    (∀ j < 64,
      (flash_sam_write (mkDev readyEfc geomP32) hwErased 0 rampData 48).hw.mem
        (0x400000 + j) = rampData j) ∧
    (∀ j < 16, hwErased.mem (0x400000 + 48 + j) = 0xFF ∧
      (flash_sam_write (mkDev readyEfc geomP32) hwErased 0 rampData 48).hw.mem
        (0x400000 + 48 + j) = rampData (48 + j) ∧ rampData (48 + j) ≠ 0xFF) := by
  decide

/-! ## C19 -/

/-- C19 at a failing input: on a 32 KiB flash (4 erase blocks of 16 pages),
`flash_sam_erase` with `offset = 0x6000` and `len = 0x4000` is accepted, there
being no bounds test, and issues erase-block commands for pages 48 and 64; the
block starting at page 64 lies wholly beyond the flash:
`(64 + 16) * page_size > flash_size`. -/
theorem erase_beyond_flash :
    0x6000 + 0x4000 > (mkDev readyEfc geom32K).driver_data.flash_size ∧
    (flash_sam_erase (mkDev readyEfc geom32K) hwErased 0x6000 0x4000).ret = some 0 ∧
    cmds (flash_sam_erase (mkDev readyEfc geom32K) hwErased 0x6000 0x4000).hw.trace
      = [⟨.EPA, 48 ||| 2⟩, ⟨.EPA, 64 ||| 2⟩] ∧
    (64 + 16) * (mkDev readyEfc geom32K).driver_data.page_size
      > (mkDev readyEfc geom32K).driver_data.flash_size := by
  decide

/-! ## C20 -/

/-- An accepted write on a controller that is always ready and acknowledges
issues the write-page commands from the 16-bit `start_page` to the 16-bit
`end_page`, in order. -/
theorem write_cmds_acked (dev : Device) (hw : Hw) (offset : Nat) (data : Nat → Nat) (len : Nat)
    (hunl : dev.driver_data.locked = 0) (hp0 : dev.driver_data.page_size ≠ 0)
    (ha1 : is_aligned len 16 = true) (ha2 : is_aligned offset 16 = true)
    (hsum : (offset + len) % 2 ^ 32 ≤ dev.driver_data.flash_size)
    (hready : ∀ t, dev.config.regs.EEFC_FSR t &&& 1 = 1)
    (hack : ∀ t c, dev.config.regs.iap_ack t c = 1) :
    (flash_sam_write dev hw offset data len).ret = some 0 ∧
    cmds (flash_sam_write dev hw offset data len).hw.trace
      = cmds hw.trace ++
        (List.range' (write_start_page dev.driver_data offset)
          (write_end_page dev.driver_data offset len + 1
            - write_start_page dev.driver_data offset)).map (fun p => (⟨.WP, p⟩ : FcrWord)) := by
  have hl := write_loop_acked dev.config.regs dev.driver_data.page_size len hready hack
    (write_end_page dev.driver_data offset len + 1 - write_start_page dev.driver_data offset)
    (write_start_page dev.driver_data offset) ((dev.config.flash_offset + offset) % 2 ^ 32)
    data hw
  have hs : ¬ (offset + len) % 2 ^ 32 > dev.driver_data.flash_size := Nat.not_lt.2 hsum
  constructor
  · unfold flash_sam_write
    simp only [hunl, ha1, ha2, hs, hp0]
    simpa using hl.1
  · unfold flash_sam_write
    simp only [hunl, ha1, ha2, hs, hp0]
    simpa using hl.2

/-- C20 at failing inputs: on an unlocked 2 MiB flash of 512-byte pages, a
zero-length write at `offset = 16` computes `end_page = (16 - 4) / 512 = 0`,
equal to `start_page`, so the loop runs once and a write-page command for page
0 is issued.  At `offset = 0` the subtraction `len - 4` wraps, `end_page` is
65535 and 65536 iterations are due: with a busy controller the first one
returns `-EBUSY` instead of success, and with a controller that is ready and
acknowledges, a write-page command is issued for every page index from 0 to
65535. -/
theorem write_zero_length_issues_command :
    geom2M.locked = 0 ∧ 16 ∣ 16 ∧ 16 ≤ geom2M.flash_size ∧
    (flash_sam_write (mkDev readyEfc geom2M) hwErased 16 rampData 0).ret = some 0 ∧
    cmds (flash_sam_write (mkDev readyEfc geom2M) hwErased 16 rampData 0).hw.trace
      = [⟨.WP, 0⟩] ∧
    write_start_page geom2M 0 = 0 ∧ write_end_page geom2M 0 0 = 65535 ∧
    (flash_sam_write (mkDev busyEfc geom2M) hwErased 0 rampData 0).ret = some (- EBUSY) ∧
    cmds (flash_sam_write (mkDev readyEfc geom2M) hwErased 0 rampData 0).hw.trace
      = (List.range' 0 65536).map (fun p => (⟨.WP, p⟩ : FcrWord)) := by
  refine ⟨by decide, by decide, by decide, by decide, by decide, by decide, by decide,
    by decide, ?_⟩
  have h := (write_cmds_acked (mkDev readyEfc geom2M) hwErased 0 rampData 0 (by decide)
    (by decide) (by decide) (by decide) (by decide)
    (fun _ => (by decide : (1 &&& 1 : Nat) = 1))
    (fun _ _ => rfl)).2
  have h0 : cmds hwErased.trace = [] := rfl
  have h1 : write_start_page (mkDev readyEfc geom2M).driver_data 0 = 0 := by decide
  have h2 : write_end_page (mkDev readyEfc geom2M).driver_data 0 0 = 65535 := by decide
  rw [h0, List.nil_append, h1, h2] at h
  exact h

/-! ## C15 -/

theorem erase_loop_ret (efc : Efc) (d : flash_sam_dev_data) :
    ∀ (n s : Nat) (hw : Hw),
      (erase_loop efc d n s hw).1 = 0 ∨ (erase_loop efc d n s hw).1 = - EIO := by
  intro n
  induction n with
  | zero => intro s hw; left; rfl
  | succ n ih =>
    intro s hw
    simp only [erase_loop]
    split_ifs
    · right; rfl
    · exact ih _ _

theorem write_loop_ret (efc : Efc) (page_size len : Nat) :
    ∀ (n i bp : Nat) (data : Nat → Nat) (hw : Hw),
      (write_loop efc page_size len n i bp data hw).1 = 0 ∨
      (write_loop efc page_size len n i bp data hw).1 = - EBUSY ∨
      (write_loop efc page_size len n i bp data hw).1 = - EIO := by
  intro n
  induction n with
  | zero => intro i bp data hw; left; rfl
  | succ n ih =>
    intro i bp data hw
    simp only [write_loop]
    split_ifs <;> first
      | exact ih _ _ _ _
      | exact Or.inr (Or.inl rfl)
      | exact Or.inr (Or.inr rfl)

/-- C15: for every device state, controller and arguments, whenever
`flash_sam_erase`, `flash_sam_write` or `flash_sam_read` returns `-EINVAL`, no
command has been issued, no byte of memory (hence of the latch or flash window)
has been written and the device record is unchanged.  For write and read the
hardware is untouched altogether (and read leaves the caller's buffer as it
was); erase has at most read the status register once. -/
theorem einval_no_side_effect (dev : Device) (hw : Hw) (offset len : Nat)
    (data : Nat → Nat) :
    ((flash_sam_erase dev hw offset len).ret = some (- EINVAL) →
      cmds (flash_sam_erase dev hw offset len).hw.trace = cmds hw.trace ∧
      ((flash_sam_erase dev hw offset len).hw.trace = hw.trace ∨
        (flash_sam_erase dev hw offset len).hw.trace
          = hw.trace ++ [.fsrRead (dev.config.regs.EEFC_FSR hw.trace)]) ∧
      (flash_sam_erase dev hw offset len).hw.mem = hw.mem ∧
      (flash_sam_erase dev hw offset len).dev = dev) ∧
    ((flash_sam_write dev hw offset data len).ret = some (- EINVAL) →
      (flash_sam_write dev hw offset data len).hw = hw ∧
      (flash_sam_write dev hw offset data len).dev = dev) ∧
    ((flash_sam_read dev hw offset data len).ret = - EINVAL →
      (flash_sam_read dev hw offset data len).hw = hw ∧
      (flash_sam_read dev hw offset data len).dev = dev ∧
      (flash_sam_read dev hw offset data len).data = data) := by
  refine ⟨?_, ?_, ?_⟩
  · intro h
    have hl := erase_loop_ret dev.config.regs dev.driver_data
      (len / dev.driver_data.erase_len) ((offset / dev.driver_data.page_size) % 2 ^ 16)
      (read_FSR dev.config.regs hw).2
    unfold flash_sam_erase at h ⊢
    simp only [] at h ⊢
    split_ifs at h ⊢
    all_goals first
      | (exfalso; simp [EINVAL, EACCES, EBUSY, EIO] at h; done)
      | (exfalso
         simp only [Option.some.injEq] at h
         rcases hl with hl | hl <;> rw [hl] at h <;> simp [EINVAL, EIO] at h)
      | simp [read_FSR, Hw.log, cmds_append, cmds]
  · intro h
    have hl := write_loop_ret dev.config.regs dev.driver_data.page_size len
      (write_end_page dev.driver_data offset len + 1 - write_start_page dev.driver_data offset)
      (write_start_page dev.driver_data offset) ((dev.config.flash_offset + offset) % 2 ^ 32)
      data hw
    unfold flash_sam_write at h ⊢
    simp only [] at h ⊢
    split_ifs at h ⊢
    all_goals first
      | (exfalso; simp [EINVAL, EACCES, EBUSY, EIO] at h; done)
      | (exfalso
         simp only [Option.some.injEq] at h
         rcases hl with hl | hl | hl <;> rw [hl] at h <;> simp [EINVAL, EIO, EBUSY] at h)
      | simp
  · intro h
    unfold flash_sam_read at h ⊢
    simp only [] at h ⊢
    split_ifs at h ⊢
    · simp
    · simp [EINVAL] at h


theorem einval_no_side_effect_witness :
    ((flash_sam_erase (mkDev readyEfc geom2M) hwErased 0x200000 512).ret
        = some (- EINVAL) ∧
      cmds (flash_sam_erase (mkDev readyEfc geom2M) hwErased 0x200000 512).hw.trace
        = cmds hwErased.trace ∧
      ((flash_sam_erase (mkDev readyEfc geom2M) hwErased 0x200000 512).hw.trace
          = hwErased.trace ∨
        (flash_sam_erase (mkDev readyEfc geom2M) hwErased 0x200000 512).hw.trace
          = hwErased.trace ++
            [.fsrRead ((mkDev readyEfc geom2M).config.regs.EEFC_FSR hwErased.trace)]) ∧
      (flash_sam_erase (mkDev readyEfc geom2M) hwErased 0x200000 512).hw.mem = hwErased.mem ∧
      (flash_sam_erase (mkDev readyEfc geom2M) hwErased 0x200000 512).dev
        = mkDev readyEfc geom2M) ∧
    ((flash_sam_write (mkDev readyEfc geom2M) hwErased 0x200000 rampData 512).ret
        = some (- EINVAL) ∧
      (flash_sam_write (mkDev readyEfc geom2M) hwErased 0x200000 rampData 512).hw = hwErased ∧
      (flash_sam_write (mkDev readyEfc geom2M) hwErased 0x200000 rampData 512).dev
        = mkDev readyEfc geom2M) ∧
    ((flash_sam_read (mkDev readyEfc geom2M) hwErased 0x200000 rampData 512).ret = - EINVAL ∧
      (flash_sam_read (mkDev readyEfc geom2M) hwErased 0x200000 rampData 512).hw = hwErased ∧
      (flash_sam_read (mkDev readyEfc geom2M) hwErased 0x200000 rampData 512).dev
        = mkDev readyEfc geom2M ∧
      (flash_sam_read (mkDev readyEfc geom2M) hwErased 0x200000 rampData 512).data
        = rampData) :=
  ⟨⟨by decide,
      (einval_no_side_effect (mkDev readyEfc geom2M) hwErased 0x200000 512 rampData).1
        (by decide)⟩,
    ⟨by decide,
      (einval_no_side_effect (mkDev readyEfc geom2M) hwErased 0x200000 512 rampData).2.1
        (by decide)⟩,
    ⟨by decide,
      (einval_no_side_effect (mkDev readyEfc geom2M) hwErased 0x200000 512 rampData).2.2
        (by decide)⟩⟩

/-! ## C18 -/

/-- C18, as the code has it: on a device with `lock_bits_number ≠ 0` and
`page_size ≠ 0`, `flash_sam_write_protection(dev, enable)` returns `-EBUSY`
exactly when bit 0 of the status register is not 1 at entry, and then it issues no
command, writes no memory and leaves the device record (the `locked` flag
included) unchanged; otherwise it returns 0 with `locked` set to `enable`,
for every controller and so whatever the get-lock-bits and clear-lock-bit
commands acknowledge.  In every case the commands it issues are get-lock-bits
and clear-lock-bit commands only (never set-lock-bit), and the configuration
and every geometry field of the device record are unchanged. -/
theorem write_protection_only_busy (dev : Device) (hw : Hw) (enable : Bool)
    (hL : dev.driver_data.lock_bits_number ≠ 0) (hP : dev.driver_data.page_size ≠ 0) :
    ((flash_sam_write_protection dev hw enable).ret = some (- EBUSY)
      ↔ dev.config.regs.EEFC_FSR hw.trace &&& 1 ≠ 1) ∧
    (dev.config.regs.EEFC_FSR hw.trace &&& 1 ≠ 1 →
      cmds (flash_sam_write_protection dev hw enable).hw.trace = cmds hw.trace ∧
      (flash_sam_write_protection dev hw enable).dev = dev) ∧
    (dev.config.regs.EEFC_FSR hw.trace &&& 1 = 1 →
      (flash_sam_write_protection dev hw enable).ret = some 0 ∧
      (flash_sam_write_protection dev hw enable).dev.driver_data.locked
        = (if enable then 1 else 0)) ∧
    (∃ new, cmds (flash_sam_write_protection dev hw enable).hw.trace = cmds hw.trace ++ new ∧
      ∀ c ∈ new, c.fcmd = .GLB ∨ c.fcmd = .CLB) ∧
    (flash_sam_write_protection dev hw enable).hw.mem = hw.mem ∧
    (flash_sam_write_protection dev hw enable).dev.config = dev.config ∧
    (flash_sam_write_protection dev hw enable).dev.driver_data.flash_id
      = dev.driver_data.flash_id ∧
    (flash_sam_write_protection dev hw enable).dev.driver_data.flash_size
      = dev.driver_data.flash_size ∧
    (flash_sam_write_protection dev hw enable).dev.driver_data.page_size
      = dev.driver_data.page_size ∧
    (flash_sam_write_protection dev hw enable).dev.driver_data.erase_len
      = dev.driver_data.erase_len ∧
    (flash_sam_write_protection dev hw enable).dev.driver_data.planes_number
      = dev.driver_data.planes_number ∧
    (flash_sam_write_protection dev hw enable).dev.driver_data.lock_bits_number
      = dev.driver_data.lock_bits_number := by
  by_cases hr : dev.config.regs.EEFC_FSR hw.trace &&& 1 = 1
  · have hout : flash_sam_write_protection dev hw enable
        = ⟨some 0, { dev with driver_data :=
              { dev.driver_data with locked := if enable then 1 else 0 } },
            if lock_status dev hw ≠ 0 then
              clb_loop dev.config.regs
                (dev.driver_data.flash_size / dev.driver_data.lock_bits_number
                  / dev.driver_data.page_size)
                dev.driver_data.lock_bits_number 0
                (read_FRR dev.config.regs
                  (soc_iap_send_flash_cmd dev.config.regs (read_FSR dev.config.regs hw).2
                    ⟨.GLB, 0⟩).2).2
            else
              (read_FRR dev.config.regs
                (soc_iap_send_flash_cmd dev.config.regs (read_FSR dev.config.regs hw).2
                  ⟨.GLB, 0⟩).2).2⟩ := by
      unfold flash_sam_write_protection lock_status
      simp only [hL, hP, read_FSR, hr, ne_eq, not_true_eq_false, if_false]
    rw [hout]
    refine ⟨⟨fun h => by simp [EBUSY] at h, fun h => absurd hr h⟩, fun h => absurd hr h,
      fun _ => ⟨rfl, rfl⟩, ?_, ?_,
      rfl, rfl, rfl, rfl, rfl, rfl, rfl⟩
    · by_cases hst : lock_status dev hw ≠ 0
      · refine ⟨_, by
          show cmds (ite _ _ _ : Hw).trace = _
          rw [if_pos hst, (clb_loop_cmds _ _ _ _ _).1]
          simp only [read_FRR, read_FSR, soc_iap_send_flash_cmd, Hw.log, cmds_append, cmds,
            List.append_assoc, List.singleton_append, List.nil_append, List.append_nil]
          rfl, ?_⟩
        intro c hc
        rcases List.mem_cons.1 hc with h | h
        · left; rw [h]
        · right
          obtain ⟨j, _, rfl⟩ := List.mem_map.1 h
          rfl
      · refine ⟨[⟨.GLB, 0⟩], by
          show cmds (ite _ _ _ : Hw).trace = _
          rw [if_neg hst]
          simp [read_FRR, read_FSR, soc_iap_send_flash_cmd, Hw.log, cmds_append, cmds], ?_⟩
        intro c hc
        left
        rw [List.mem_singleton.1 hc]
    · by_cases hst : lock_status dev hw ≠ 0
      · show (ite _ _ _ : Hw).mem = _
        rw [if_pos hst, (clb_loop_cmds _ _ _ _ _).2]
        rfl
      · show (ite _ _ _ : Hw).mem = _
        rw [if_neg hst]
        rfl
  · have hout : flash_sam_write_protection dev hw enable
        = ⟨some (- EBUSY), dev, (read_FSR dev.config.regs hw).2⟩ := by
      unfold flash_sam_write_protection
      simp only [hL, hP, read_FSR, ne_eq, hr, not_false_eq_true, if_true, if_false]
    rw [hout]
    refine ⟨⟨fun _ => hr, fun _ => rfl⟩,
      fun _ => ⟨by simp [read_FSR, Hw.log, cmds_append, cmds], rfl⟩,
      fun h => absurd h hr, ⟨[], by simp [read_FSR, Hw.log, cmds_append, cmds], by simp⟩,
      rfl, rfl, rfl, rfl, rfl, rfl, rfl, rfl⟩


theorem write_protection_only_busy_witness :
    ((mkDev busyEfc geom2M).driver_data.lock_bits_number ≠ 0 ∧
      (mkDev busyEfc geom2M).driver_data.page_size ≠ 0 ∧
      (mkDev busyEfc geom2M).config.regs.EEFC_FSR hwErased.trace &&& 1 ≠ 1 ∧
      cmds (flash_sam_write_protection (mkDev busyEfc geom2M) hwErased true).hw.trace
        = cmds hwErased.trace ∧
      (flash_sam_write_protection (mkDev busyEfc geom2M) hwErased true).dev
        = mkDev busyEfc geom2M) ∧
    ((mkDev nackEfc geom2M).driver_data.lock_bits_number ≠ 0 ∧
      (mkDev nackEfc geom2M).driver_data.page_size ≠ 0 ∧
      (mkDev nackEfc geom2M).config.regs.EEFC_FSR hwErased.trace &&& 1 = 1 ∧
      (flash_sam_write_protection (mkDev nackEfc geom2M) hwErased true).ret = some 0 ∧
      (flash_sam_write_protection (mkDev nackEfc geom2M) hwErased true).dev.driver_data.locked
        = (if true then 1 else 0)) :=
  ⟨⟨by decide, by decide, by decide,
      (write_protection_only_busy (mkDev busyEfc geom2M) hwErased true (by decide)
        (by decide)).2.1 (by decide)⟩,
    ⟨by decide, by decide, by decide,
      (write_protection_only_busy (mkDev nackEfc geom2M) hwErased true (by decide)
        (by decide)).2.2.1 (by decide)⟩⟩

/-- C18 as stated fails on a device with `lock_bits_number = 0` and on a device
with `page_size = 0`: the call divides by both at entry, before the ready test,
so it returns neither `-EBUSY` with a busy controller nor success with a ready
one: it does not return, and `locked` keeps its value. -/
theorem write_protection_only_busy_counterexample :
    ((mkDev busyEfc geomLock0).config.regs.EEFC_FSR hwErased.trace &&& 1 ≠ 1 ∧
      (flash_sam_write_protection (mkDev busyEfc geomLock0) hwErased true).ret = none) ∧
    ((mkDev readyEfc geomLock0).config.regs.EEFC_FSR hwErased.trace &&& 1 = 1 ∧
      (flash_sam_write_protection (mkDev readyEfc geomLock0) hwErased true).ret = none ∧
      (flash_sam_write_protection (mkDev readyEfc geomLock0) hwErased
        true).dev.driver_data.locked = 0) ∧
    ((mkDev busyEfc geomPage0).config.regs.EEFC_FSR hwErased.trace &&& 1 ≠ 1 ∧
      (flash_sam_write_protection (mkDev busyEfc geomPage0) hwErased true).ret = none) ∧
    ((mkDev readyEfc geomPage0).config.regs.EEFC_FSR hwErased.trace &&& 1 = 1 ∧
      (flash_sam_write_protection (mkDev readyEfc geomPage0) hwErased true).ret = none ∧
      (flash_sam_write_protection (mkDev readyEfc geomPage0) hwErased
        true).dev.driver_data.locked = 0) := by
  decide

/-! ## C16 -/

theorem write_loop_guarded (efc : Efc) (page_size len : Nat) :
    ∀ (n i bp : Nat) (data : Nat → Nat) (hw : Hw),
      ∃ evs, (write_loop efc page_size len n i bp data hw).2.trace = hw.trace ++ evs ∧
        guardedFrom false evs = true := by
  intro n
  induction n with
  | zero => intro i bp data hw; exact ⟨[], by simp [write_loop], rfl⟩
  | succ n ih =>
    intro i bp data hw
    simp only [write_loop, read_FSR, soc_iap_send_flash_cmd, Hw.log]
    generalize (if len > page_size then page_size else len) = c
    by_cases hr : efc.EEFC_FSR hw.trace &&& 1 = 1
    · simp only [hr, ne_eq, not_true_eq_false, if_false]
      by_cases hack : efc.iap_ack (hw.trace ++ [.fsrRead (efc.EEFC_FSR hw.trace)]) ⟨.WP, i⟩ = 1
      · simp only [hack, not_true_eq_false, if_false]
        obtain ⟨evs, h1, h2⟩ := ih (i + 1) ((bp + c) % 2 ^ 32) (fun j => data (c + j))
          { trace := hw.trace ++ [.fsrRead (efc.EEFC_FSR hw.trace)] ++
              [.iapCmd ⟨.WP, i⟩ 1],
            mem := memcpy hw.mem bp data c }
        refine ⟨.fsrRead (efc.EEFC_FSR hw.trace) :: .iapCmd ⟨.WP, i⟩ 1 :: evs, ?_, ?_⟩
        · rw [h1]; simp
        · simp [guardedFrom, isCmd, isReadyRead, hr, h2]
      · simp only [hack, not_false_eq_true, if_true]
        exact ⟨[.fsrRead (efc.EEFC_FSR hw.trace), .iapCmd ⟨.WP, i⟩
            (efc.iap_ack (hw.trace ++ [.fsrRead (efc.EEFC_FSR hw.trace)]) ⟨.WP, i⟩)], by simp,
          by simp [guardedFrom, isCmd, isReadyRead, hr]⟩
    · simp only [ne_eq, hr, not_false_eq_true, if_true]
      exact ⟨[.fsrRead (efc.EEFC_FSR hw.trace)], rfl, by simp [guardedFrom, isCmd]⟩

theorem erase_loop_events (efc : Efc) (d : flash_sam_dev_data) :
    ∀ (n s : Nat) (hw : Hw),
      ∃ cs, (erase_loop efc d n s hw).2.trace = hw.trace ++ cs ∧
        ∀ e ∈ cs, ∃ c a, e = HwEvent.iapCmd c a := by
  intro n
  induction n with
  | zero => intro s hw; exact ⟨[], by simp [erase_loop], by simp⟩
  | succ n ih =>
    intro s hw
    simp only [erase_loop, soc_iap_send_flash_cmd, Hw.log]
    split_ifs with hack
    · exact ⟨[.iapCmd ⟨.EPA, s ||| 2⟩ (efc.iap_ack hw.trace ⟨.EPA, s ||| 2⟩)], rfl, by simp⟩
    · obtain ⟨cs, h1, h2⟩ := ih ((s + d.erase_len / d.page_size) % 2 ^ 16)
        { trace := hw.trace ++ [.iapCmd ⟨.EPA, s ||| 2⟩ (efc.iap_ack hw.trace ⟨.EPA, s ||| 2⟩)],
          mem := hw.mem }
      refine ⟨.iapCmd ⟨.EPA, s ||| 2⟩ (efc.iap_ack hw.trace ⟨.EPA, s ||| 2⟩) :: cs, ?_, ?_⟩
      · rw [h1]; simp
      · intro e he
        rcases List.mem_cons.1 he with h | h
        · exact ⟨_, _, h⟩
        · exact h2 e h

/-- C16, as the code has it.  In every execution of `flash_sam_write`, every
command in the events the call adds to the trace comes directly after a read
of the status register that found bit 0 set.  In every execution of
`flash_sam_erase` the call adds either nothing, or one read of the status
register followed by commands only: the first command (erase-all, or the first
erase-block command of a batch) comes directly after that read, which found
bit 0 set, and each further erase-block command follows the previous command
directly, with no status read in between. -/
theorem commands_after_ready (dev : Device) (hw : Hw) (offset len : Nat)
    (data : Nat → Nat) :
    (∃ evs, (flash_sam_write dev hw offset data len).hw.trace = hw.trace ++ evs ∧
      guardedFrom false evs = true) ∧
    (∃ evs, (flash_sam_erase dev hw offset len).hw.trace = hw.trace ++ evs ∧
      (evs = [] ∨ ∃ v cs, evs = HwEvent.fsrRead v :: cs ∧
        (cs ≠ [] → v &&& 1 = 1) ∧ ∀ e ∈ cs, ∃ c a, e = HwEvent.iapCmd c a)) := by
  constructor
  · unfold flash_sam_write
    simp only []
    split_ifs
    · exact ⟨[], by simp, rfl⟩
    · exact ⟨[], by simp, rfl⟩
    · exact ⟨[], by simp, rfl⟩
    · exact ⟨[], by simp, rfl⟩
    · exact write_loop_guarded _ _ _ _ _ _ _ _
  · unfold flash_sam_erase
    simp only [read_FSR, soc_iap_send_flash_cmd, Hw.log]
    split_ifs with h1 h2 h3 h4 h5 h6 h7 h8
    · exact ⟨[], by simp, Or.inl rfl⟩
    · exact ⟨[], by simp, Or.inl rfl⟩
    · exact ⟨[.fsrRead (dev.config.regs.EEFC_FSR hw.trace)], rfl,
        Or.inr ⟨_, [], rfl, by simp, by simp⟩⟩
    · exact ⟨[.fsrRead (dev.config.regs.EEFC_FSR hw.trace)], rfl,
        Or.inr ⟨_, [], rfl, by simp, by simp⟩⟩
    · exact ⟨[.fsrRead (dev.config.regs.EEFC_FSR hw.trace), .iapCmd ⟨.EA, 0⟩
          (dev.config.regs.iap_ack
          (hw.trace ++ [.fsrRead (dev.config.regs.EEFC_FSR hw.trace)]) ⟨.EA, 0⟩)], by simp,
        Or.inr ⟨_, [.iapCmd ⟨.EA, 0⟩
          (dev.config.regs.iap_ack
          (hw.trace ++ [.fsrRead (dev.config.regs.EEFC_FSR hw.trace)]) ⟨.EA, 0⟩)], rfl, fun _ => not_not.1 h3, by simp⟩⟩
    · exact ⟨[.fsrRead (dev.config.regs.EEFC_FSR hw.trace), .iapCmd ⟨.EA, 0⟩
          (dev.config.regs.iap_ack
          (hw.trace ++ [.fsrRead (dev.config.regs.EEFC_FSR hw.trace)]) ⟨.EA, 0⟩)], by simp,
        Or.inr ⟨_, [.iapCmd ⟨.EA, 0⟩
          (dev.config.regs.iap_ack
          (hw.trace ++ [.fsrRead (dev.config.regs.EEFC_FSR hw.trace)]) ⟨.EA, 0⟩)], rfl, fun _ => not_not.1 h3, by simp⟩⟩
    · exact ⟨[.fsrRead (dev.config.regs.EEFC_FSR hw.trace)], rfl,
        Or.inr ⟨_, [], rfl, by simp, by simp⟩⟩
    · obtain ⟨cs, e1, e2⟩ := erase_loop_events dev.config.regs dev.driver_data
        (len / dev.driver_data.erase_len) ((offset / dev.driver_data.page_size) % 2 ^ 16)
        { trace := hw.trace ++ [.fsrRead (dev.config.regs.EEFC_FSR hw.trace)], mem := hw.mem }
      refine ⟨.fsrRead (dev.config.regs.EEFC_FSR hw.trace) :: cs, ?_,
        Or.inr ⟨_, cs, rfl, fun _ => not_not.1 h3, e2⟩⟩
      simp only []
      rw [e1]; simp
    · exact ⟨[.fsrRead (dev.config.regs.EEFC_FSR hw.trace)], rfl,
        Or.inr ⟨_, [], rfl, by simp, by simp⟩⟩

/-- C16 as stated fails for a batch: erasing two blocks reads the status
register once and then issues two erase-block commands, the second directly
after the first, with no status read before it. -/
theorem commands_after_ready_counterexample :
    (flash_sam_erase (mkDev readyEfc geom2M) hwErased 8192 16384).hw.trace
      = [.fsrRead 1, .iapCmd ⟨.EPA, 18⟩ 1, .iapCmd ⟨.EPA, 34⟩ 1] ∧
    guardedFrom false
      (flash_sam_erase (mkDev readyEfc geom2M) hwErased 8192 16384).hw.trace = false := by
  decide


theorem commands_after_ready_witness :
    (∃ evs, (flash_sam_write (mkDev nackEfc geom2M) hwErased 496 rampData 32).hw.trace
        = hwErased.trace ++ evs ∧ guardedFrom false evs = true) ∧
    (∃ evs, (flash_sam_erase (mkDev nackEfc geom2M) hwErased 496 32).hw.trace
        = hwErased.trace ++ evs ∧
      (evs = [] ∨ ∃ v cs, evs = HwEvent.fsrRead v :: cs ∧
        (cs ≠ [] → v &&& 1 = 1) ∧ ∀ e ∈ cs, ∃ c a, e = HwEvent.iapCmd c a)) :=
  commands_after_ready (mkDev nackEfc geom2M) hwErased 496 32 rampData

/-! ## C17 -/

theorem epa_word_shift (d : flash_sam_dev_data) (s j : Nat) :
    epa_word d ((s + d.erase_len / d.page_size) % 2 ^ 16) j = epa_word d s (j + 1) := by
  unfold epa_word
  congr 2
  rw [Nat.mod_add_mod]
  congr 1
  ring

theorem epa_acked_shift (d : flash_sam_dev_data) (s : Nat) (t : List HwEvent) (j : Nat) :
    epa_acked d ((s + d.erase_len / d.page_size) % 2 ^ 16)
        (t ++ [.iapCmd (epa_word d s 0) 1]) j
      = epa_acked d s t (j + 1) := by
  unfold epa_acked
  rw [List.range_succ_eq_map, List.map_cons, List.map_map, List.append_assoc,
    List.singleton_append]
  congr 2
  apply List.map_congr_left
  intro i _
  simp only [Function.comp, epa_word_shift]

theorem epa_word_zero (d : flash_sam_dev_data) (s : Nat) (hs : s < 2 ^ 16) :
    epa_word d s 0 = ⟨.EPA, s ||| 2⟩ := by
  unfold epa_word
  rw [Nat.zero_mul, Nat.add_zero, Nat.mod_eq_of_lt hs]

theorem erase_loop_first_nack (efc : Efc) (d : flash_sam_dev_data) :
    ∀ (m n s : Nat) (hw : Hw), s < 2 ^ 16 → m < n →
      (∀ j < m, efc.iap_ack (epa_acked d s hw.trace j) (epa_word d s j) = 1) →
      efc.iap_ack (epa_acked d s hw.trace m) (epa_word d s m) ≠ 1 →
      (erase_loop efc d n s hw).1 = - EIO ∧
      (erase_loop efc d n s hw).2.trace
        = epa_acked d s hw.trace m ++
          [.iapCmd (epa_word d s m)
            (efc.iap_ack (epa_acked d s hw.trace m) (epa_word d s m))] ∧
      (erase_loop efc d n s hw).2.mem = hw.mem := by
  intro m
  induction m with
  | zero =>
    intro n s hw hs hn _ hfail
    obtain ⟨n, rfl⟩ : ∃ k, n = k + 1 := ⟨n - 1, by omega⟩
    have e0 : epa_acked d s hw.trace 0 = hw.trace := by simp [epa_acked]
    rw [e0, epa_word_zero d s hs] at hfail ⊢
    simp only [erase_loop, soc_iap_send_flash_cmd, Hw.log, hfail, ne_eq, not_false_eq_true,
      if_true, and_self]
  | succ m ih =>
    intro n s hw hs hn hfirst hfail
    obtain ⟨n, rfl⟩ : ∃ k, n = k + 1 := ⟨n - 1, by omega⟩
    have e0 : epa_acked d s hw.trace 0 = hw.trace := by simp [epa_acked]
    have h0 := hfirst 0 (Nat.succ_pos m)
    rw [e0, epa_word_zero d s hs] at h0
    have hs' : (s + d.erase_len / d.page_size) % 2 ^ 16 < 2 ^ 16 :=
      Nat.mod_lt _ (by norm_num)
    have hw0 : HwEvent.iapCmd ⟨.EPA, s ||| 2⟩ 1 = HwEvent.iapCmd (epa_word d s 0) 1 := by
      rw [epa_word_zero d s hs]
    obtain ⟨r1, r2, r3⟩ := ih n ((s + d.erase_len / d.page_size) % 2 ^ 16)
      { trace := hw.trace ++ [.iapCmd ⟨.EPA, s ||| 2⟩ 1], mem := hw.mem } hs' (by omega)
      (by
        intro j hj
        simp only [hw0, epa_acked_shift, epa_word_shift]
        exact hfirst (j + 1) (by omega))
      (by
        simp only [hw0, epa_acked_shift, epa_word_shift]
        exact hfail)
    simp only [hw0, epa_acked_shift, epa_word_shift] at r1 r2 r3
    simp only [erase_loop, soc_iap_send_flash_cmd, Hw.log, h0, ne_eq, not_true_eq_false,
      if_false, hw0]
    exact ⟨r1, r2, r3⟩


/-- C17: take a `flash_sam_erase` that reaches the block loop (device unlocked,
`page_size ≠ 0`, `offset` aligned to `page_size`, status register ready, not
the whole-chip case, `len` and `offset` aligned to `erase_len`), so that
`n = len / erase_len` commands are due, the `j`-th (from 0) being
`epa_word dev_data start_page j`.  A batch of at least one block has
`page_size ≠ 0` and `erase_len ≠ 0`: the call divides by both before the first
command.  If the commands before index `m < n` are
acknowledged with 0x1 and the command of index `m` (the `m + 1`-th) is not,
the call returns `-EIO`; the commands it has issued are exactly the first
`m + 1` of the batch, in order, the last event of the trace being the rejected
command; memory and the device record are unchanged. -/
theorem erase_first_nack (dev : Device) (hw : Hw) (offset len m : Nat)
    (hunl : dev.driver_data.locked = 0)
    (hps : dev.driver_data.page_size ≠ 0)
    (hal : is_aligned offset dev.driver_data.page_size = true)
    (hready : dev.config.regs.EEFC_FSR hw.trace &&& 1 = 1)
    (hshape : ¬ ((offset / dev.driver_data.page_size) % 2 ^ 16 = 0
      ∧ len = dev.driver_data.flash_size))
    (hal2 : is_aligned len dev.driver_data.erase_len = true)
    (hal3 : is_aligned offset dev.driver_data.erase_len = true)
    (hm : m < len / dev.driver_data.erase_len)
    (hfirst : ∀ j < m,
      dev.config.regs.iap_ack
        (epa_acked dev.driver_data ((offset / dev.driver_data.page_size) % 2 ^ 16)
          (hw.trace ++ [.fsrRead (dev.config.regs.EEFC_FSR hw.trace)]) j)
        (epa_word dev.driver_data ((offset / dev.driver_data.page_size) % 2 ^ 16) j) = 1)
    (hfail :
      dev.config.regs.iap_ack
        (epa_acked dev.driver_data ((offset / dev.driver_data.page_size) % 2 ^ 16)
          (hw.trace ++ [.fsrRead (dev.config.regs.EEFC_FSR hw.trace)]) m)
        (epa_word dev.driver_data ((offset / dev.driver_data.page_size) % 2 ^ 16) m) ≠ 1) :
    (flash_sam_erase dev hw offset len).ret = some (- EIO) ∧
    cmds (flash_sam_erase dev hw offset len).hw.trace
      = cmds hw.trace ++ (List.range (m + 1)).map
          (epa_word dev.driver_data ((offset / dev.driver_data.page_size) % 2 ^ 16)) ∧
    (flash_sam_erase dev hw offset len).hw.trace
      = epa_acked dev.driver_data ((offset / dev.driver_data.page_size) % 2 ^ 16)
          (hw.trace ++ [.fsrRead (dev.config.regs.EEFC_FSR hw.trace)]) m ++
        [.iapCmd (epa_word dev.driver_data ((offset / dev.driver_data.page_size) % 2 ^ 16) m)
          (dev.config.regs.iap_ack
            (epa_acked dev.driver_data ((offset / dev.driver_data.page_size) % 2 ^ 16)
              (hw.trace ++ [.fsrRead (dev.config.regs.EEFC_FSR hw.trace)]) m)
            (epa_word dev.driver_data ((offset / dev.driver_data.page_size) % 2 ^ 16) m))] ∧
    (flash_sam_erase dev hw offset len).hw.mem = hw.mem ∧
    (flash_sam_erase dev hw offset len).dev = dev := by
  obtain ⟨r1, r2, r3⟩ := erase_loop_first_nack dev.config.regs dev.driver_data m
    (len / dev.driver_data.erase_len) ((offset / dev.driver_data.page_size) % 2 ^ 16)
    { trace := hw.trace ++ [.fsrRead (dev.config.regs.EEFC_FSR hw.trace)], mem := hw.mem }
    (Nat.mod_lt _ (by norm_num)) hm hfirst hfail
  have he0 : dev.driver_data.erase_len ≠ 0 := by
    intro h0
    rw [h0, Nat.div_zero] at hm
    exact Nat.not_lt_zero _ hm
  have hout : flash_sam_erase dev hw offset len
      = ⟨some (erase_loop dev.config.regs dev.driver_data (len / dev.driver_data.erase_len)
            ((offset / dev.driver_data.page_size) % 2 ^ 16)
            { trace := hw.trace ++ [.fsrRead (dev.config.regs.EEFC_FSR hw.trace)],
              mem := hw.mem }).1, dev,
          (erase_loop dev.config.regs dev.driver_data (len / dev.driver_data.erase_len)
            ((offset / dev.driver_data.page_size) % 2 ^ 16)
            { trace := hw.trace ++ [.fsrRead (dev.config.regs.EEFC_FSR hw.trace)],
              mem := hw.mem }).2⟩ := by
    unfold flash_sam_erase
    simp only [hunl, hps, he0, hal, hal2, hal3, read_FSR, hready, Hw.log, hshape]
    simp
  rw [hout]
  refine ⟨congrArg some r1, ?_, r2, r3, rfl⟩
  show cmds (erase_loop _ _ _ _ _).2.trace = _
  rw [r2, cmds_append, List.range_succ, List.map_append, ← List.append_assoc]
  congr 1
  · unfold epa_acked
    rw [cmds_append, cmds_append]
    have hc : ∀ (f : Nat → FcrWord) (l : List Nat),
        cmds (l.map (fun i => HwEvent.iapCmd (f i) 1)) = l.map f := by
      intro f l
      induction l with
      | nil => rfl
      | cons a l ih => simp [cmds, ih]
    rw [hc]
    simp [cmds]

theorem erase_first_nack_witness :
    (mkDev (failAtEfc 1) geom2M).driver_data.locked = 0 ∧
    (mkDev (failAtEfc 1) geom2M).driver_data.page_size ≠ 0 ∧
    is_aligned 8192 (mkDev (failAtEfc 1) geom2M).driver_data.page_size = true ∧
    1 < 24576 / (mkDev (failAtEfc 1) geom2M).driver_data.erase_len ∧
    ((flash_sam_erase (mkDev (failAtEfc 1) geom2M) hwErased 8192 24576).ret = some (- EIO) ∧
    cmds (flash_sam_erase (mkDev (failAtEfc 1) geom2M) hwErased 8192 24576).hw.trace
      = cmds hwErased.trace ++ (List.range (1 + 1)).map
          (epa_word (mkDev (failAtEfc 1) geom2M).driver_data
            ((8192 / (mkDev (failAtEfc 1) geom2M).driver_data.page_size) % 2 ^ 16)) ∧
    (flash_sam_erase (mkDev (failAtEfc 1) geom2M) hwErased 8192 24576).hw.trace
      = epa_acked (mkDev (failAtEfc 1) geom2M).driver_data
          ((8192 / (mkDev (failAtEfc 1) geom2M).driver_data.page_size) % 2 ^ 16)
          (hwErased.trace ++
            [.fsrRead ((mkDev (failAtEfc 1) geom2M).config.regs.EEFC_FSR hwErased.trace)]) 1 ++
        [.iapCmd (epa_word (mkDev (failAtEfc 1) geom2M).driver_data
            ((8192 / (mkDev (failAtEfc 1) geom2M).driver_data.page_size) % 2 ^ 16) 1)
          ((mkDev (failAtEfc 1) geom2M).config.regs.iap_ack
            (epa_acked (mkDev (failAtEfc 1) geom2M).driver_data
              ((8192 / (mkDev (failAtEfc 1) geom2M).driver_data.page_size) % 2 ^ 16)
              (hwErased.trace ++
                [.fsrRead ((mkDev (failAtEfc 1) geom2M).config.regs.EEFC_FSR hwErased.trace)])
              1)
            (epa_word (mkDev (failAtEfc 1) geom2M).driver_data
              ((8192 / (mkDev (failAtEfc 1) geom2M).driver_data.page_size) % 2 ^ 16) 1))] ∧
    (flash_sam_erase (mkDev (failAtEfc 1) geom2M) hwErased 8192 24576).hw.mem
      = hwErased.mem ∧
    (flash_sam_erase (mkDev (failAtEfc 1) geom2M) hwErased 8192 24576).dev
      = mkDev (failAtEfc 1) geom2M) :=
  ⟨by decide, by decide, by decide, by decide,
    erase_first_nack (mkDev (failAtEfc 1) geom2M) hwErased 8192 24576 1 (by decide)
      (by decide) (by decide) (by decide) (by decide) (by decide) (by decide) (by decide) (by decide)
      (by decide)⟩


/-! ## C13 -/

theorem wait_ready_polls (efc : Efc) :
    ∀ (m fuel : Nat) (hw : Hw), m < fuel →
      (∀ j < m, efc.EEFC_FSR (poll_trace efc j hw.trace) &&& 1 ≠ 1) →
      efc.EEFC_FSR (poll_trace efc m hw.trace) &&& 1 = 1 →
      wait_ready efc fuel hw = some { hw with trace := poll_trace efc (m + 1) hw.trace } := by
  intro m
  induction m with
  | zero =>
    intro fuel hw hf _ hr
    obtain ⟨fuel, rfl⟩ : ∃ k, fuel = k + 1 := ⟨fuel - 1, by omega⟩
    simp only [poll_trace] at hr
    simp only [wait_ready, read_FSR, hr, ne_eq, not_true_eq_false, if_false, Hw.log, poll_trace]
  | succ m ih =>
    intro fuel hw hf hbusy hr
    obtain ⟨fuel, rfl⟩ : ∃ k, fuel = k + 1 := ⟨fuel - 1, by omega⟩
    have h0 := hbusy 0 (Nat.succ_pos m)
    simp only [poll_trace] at h0
    have := ih fuel (hw.log (.fsrRead (efc.EEFC_FSR hw.trace))) (by omega)
      (fun j hj => hbusy (j + 1) (by omega)) hr
    simp only [wait_ready, read_FSR, h0, ne_eq, not_false_eq_true, if_true]
    rw [this]
    rfl

theorem skip_FRR_trace (efc : Efc) :
    ∀ (n : Nat) (hw : Hw),
      (skip_FRR efc n hw).trace
        = hw.trace ++ (frr_values efc n hw.trace).map HwEvent.frrRead ∧
      (skip_FRR efc n hw).mem = hw.mem := by
  intro n
  induction n with
  | zero => intro hw; simp [skip_FRR, frr_values]
  | succ n ih =>
    intro hw
    simp only [skip_FRR, frr_values, read_FRR, Hw.log]
    refine ⟨?_, ?_⟩
    · rw [(ih _).1]; simp
    · rw [(ih _).2]

theorem frr_values_length (efc : Efc) :
    ∀ (n : Nat) (t : List HwEvent), (frr_values efc n t).length = n := by
  intro n
  induction n with
  | zero => intro t; rfl
  | succ n ih => intro t; simp [frr_values, ih]

theorem frr_values_succ (efc : Efc) :
    ∀ (n : Nat) (t : List HwEvent),
      frr_values efc (n + 1) t
        = frr_values efc n t ++
          [efc.EEFC_FRR (t ++ (frr_values efc n t).map HwEvent.frrRead)] := by
  intro n
  induction n with
  | zero => intro t; simp [frr_values]
  | succ n ih =>
    intro t
    rw [frr_values, ih]
    simp [frr_values]


theorem cmds_poll_trace (efc : Efc) :
    ∀ (k : Nat) (t : List HwEvent), cmds (poll_trace efc k t) = cmds t := by
  intro k
  induction k with
  | zero => intro t; rfl
  | succ k ih => intro t; rw [poll_trace, ih, cmds_append]; simp [cmds]

theorem cmds_map_frrRead (l : List Nat) : cmds (l.map HwEvent.frrRead) = [] := by
  induction l with
  | nil => rfl
  | cons a l ih => simp [cmds, ih]

/-- C13, as the code has it: suppose that after the get-descriptor command the
status register reads busy `m` times and then ready, and that from then on the
result register delivers `id, size, psz, n`, then the `n` words `ws`, then `L`.
Then, provided `psz ≠ 0` and `16 * psz` fits in 32 bits, `flash_sam_init`,
given more than `m` status reads of fuel, returns 0 with `flash_id = id`,
`flash_size = size`, `page_size = psz`, `planes_number = n`,
`lock_bits_number = L`, `locked = 0`, `erase_len = 16 * psz` and a page layout
of `size / (16 * psz)` blocks of `16 * psz` bytes, whatever the layout held
before.  The only command issued is get-descriptor, the configuration is
unchanged and no memory is written. -/
theorem init_geometry (dev : Device) (hw : Hw) (dl : flash_pages_layout)
    (m fuel id size psz n L : Nat) (ws : List Nat)
    (hfuel : m < fuel)
    (hbusy : ∀ j < m,
      dev.config.regs.EEFC_FSR
        (poll_trace dev.config.regs j (hw.trace ++ [.fcrWrite ⟨.GETD, 0⟩])) &&& 1 ≠ 1)
    (hready :
      dev.config.regs.EEFC_FSR
        (poll_trace dev.config.regs m (hw.trace ++ [.fcrWrite ⟨.GETD, 0⟩])) &&& 1 = 1)
    (hseq :
      frr_values dev.config.regs (n + 5)
        (poll_trace dev.config.regs (m + 1) (hw.trace ++ [.fcrWrite ⟨.GETD, 0⟩]))
        = id :: size :: psz :: n :: (ws ++ [L]))
    (hpz : psz ≠ 0)
    (hpsz : 16 * psz < 2 ^ 32) :
    ∃ out, flash_sam_init fuel dev hw dl = some out ∧
      out.ret = some 0 ∧
      out.dev.driver_data
        = { flash_id := id, flash_size := size, page_size := psz, erase_len := 16 * psz,
            planes_number := n, lock_bits_number := L, locked := 0 } ∧
      out.dev.config = dev.config ∧
      out.dev_layout = ⟨size / (16 * psz), 16 * psz⟩ ∧
      cmds out.hw.trace = cmds hw.trace ++ [⟨.GETD, 0⟩] ∧
      out.hw.mem = hw.mem := by
  have hw1 := wait_ready_polls dev.config.regs m fuel (hw.log (.fcrWrite ⟨.GETD, 0⟩)) hfuel
    hbusy hready
  simp only [Hw.log] at hw1
  -- the descriptor reads, one after the other
  rw [show n + 5 = n + 1 + 1 + 1 + 1 + 1 from rfl, frr_values, frr_values, frr_values,
    frr_values] at hseq
  simp only [List.cons.injEq] at hseq
  obtain ⟨h1, h2, h3, h4, h5⟩ := hseq
  rw [h1] at h2 h3 h4 h5
  rw [h2] at h3 h4 h5
  rw [h3] at h4 h5
  rw [h4] at h5
  rw [frr_values_succ] at h5
  have h6 := (List.append_inj' h5 rfl).2
  simp only [List.cons.injEq, and_true] at h6
  have hel : (psz * 16) % 2 ^ 32 = 16 * psz := by
    rw [Nat.mod_eq_of_lt (by omega)]; omega
  have hne : 16 * psz ≠ 0 := by omega
  unfold flash_sam_init
  simp only [Hw.log, hw1, read_FRR, h1, h2, h3, h4, hel, hne, if_false]
  refine ⟨_, rfl, rfl, ?_, rfl, rfl, ?_, ?_⟩
  · simp only [flash_sam_dev_data.mk.injEq, true_and, and_true]
    rw [(skip_FRR_trace _ _ _).1]
    exact h6
  · show cmds (_ ++ _) = _
    rw [(skip_FRR_trace _ _ _).1]
    simp [cmds_append, cmds_poll_trace, cmds_map_frrRead, cmds]
  · show (skip_FRR _ _ _).mem = _
    rw [(skip_FRR_trace _ _ _).2]

theorem init_geometry_witness :
    2 < 3 ∧
    (∀ j < 2,
      (mkDev (slowDescEfc [7, 0x200000, 512, 2, 11, 12, 128]) geomZero).config.regs.EEFC_FSR
        (poll_trace (mkDev (slowDescEfc [7, 0x200000, 512, 2, 11, 12, 128]) geomZero).config.regs
          j (hwErased.trace ++ [.fcrWrite ⟨.GETD, 0⟩])) &&& 1 ≠ 1) ∧
    512 ≠ 0 ∧
    16 * 512 < 2 ^ 32 ∧
    (∃ out,
      flash_sam_init 3 (mkDev (slowDescEfc [7, 0x200000, 512, 2, 11, 12, 128]) geomZero)
        hwErased ⟨0, 0⟩ = some out ∧
      out.ret = some 0 ∧
      out.dev.driver_data
        = { flash_id := 7, flash_size := 0x200000, page_size := 512, erase_len := 16 * 512,
            planes_number := 2, lock_bits_number := 128, locked := 0 } ∧
      out.dev.config
        = (mkDev (slowDescEfc [7, 0x200000, 512, 2, 11, 12, 128]) geomZero).config ∧
      out.dev_layout = ⟨0x200000 / (16 * 512), 16 * 512⟩ ∧
      cmds out.hw.trace = cmds hwErased.trace ++ [⟨.GETD, 0⟩] ∧
      out.hw.mem = hwErased.mem) :=
  ⟨by decide, by decide, by decide, by decide,
    init_geometry (mkDev (slowDescEfc [7, 0x200000, 512, 2, 11, 12, 128]) geomZero) hwErased
      ⟨0, 0⟩ 2 3 7 0x200000 512 2 128 [11, 12] (by decide) (by decide) (by decide) (by decide)
      (by decide) (by decide)⟩

/-- C13 as stated fails in three ways, each with a ready controller and the
layout static at its initial `⟨0, 0⟩`.  With the descriptor `7, 0x200000, 0, 1,
9, 4` (`psz = 0`) `erase_len` is 0 and the layout division `flash_size /
erase_len` divides by zero: the call does not return success, and the layout is
not written.  With `psz = 0x10000000` the product `page_size * 16` wraps to 0,
with the same effect.  With `psz = 0x10000020` the product wraps to 512: the
call returns 0, but `erase_len` is 512 and not `16 * psz`, and the layout has
blocks of 512 bytes. -/
theorem init_geometry_counterexample :
    (frr_values (descEfc [7, 0x200000, 0, 1, 9, 4]) (1 + 5)
        (poll_trace (descEfc [7, 0x200000, 0, 1, 9, 4]) 1
          (hwErased.trace ++ [.fcrWrite ⟨.GETD, 0⟩]))
      = [7, 0x200000, 0, 1, 9, 4] ∧
    (flash_sam_init 1 (mkDev (descEfc [7, 0x200000, 0, 1, 9, 4]) geomZero)
        hwErased ⟨0, 0⟩).map
        (fun o => (o.ret, o.dev.driver_data.page_size, o.dev.driver_data.erase_len,
          o.dev_layout))
      = some (none, 0, 0, ⟨0, 0⟩)) ∧
    (frr_values (descEfc [7, 0x80000000, 0x10000000, 1, 9, 4]) (1 + 5)
        (poll_trace (descEfc [7, 0x80000000, 0x10000000, 1, 9, 4]) 1
          (hwErased.trace ++ [.fcrWrite ⟨.GETD, 0⟩]))
      = [7, 0x80000000, 0x10000000, 1, 9, 4] ∧
    (flash_sam_init 1 (mkDev (descEfc [7, 0x80000000, 0x10000000, 1, 9, 4]) geomZero)
        hwErased ⟨0, 0⟩).map
        (fun o => (o.ret, o.dev.driver_data.page_size, o.dev.driver_data.erase_len,
          o.dev_layout))
      = some (none, 0x10000000, 0, ⟨0, 0⟩)) ∧
    (frr_values (descEfc [7, 0x80000000, 0x10000020, 1, 9, 4]) (1 + 5)
        (poll_trace (descEfc [7, 0x80000000, 0x10000020, 1, 9, 4]) 1
          (hwErased.trace ++ [.fcrWrite ⟨.GETD, 0⟩]))
      = [7, 0x80000000, 0x10000020, 1, 9, 4] ∧
    (flash_sam_init 1 (mkDev (descEfc [7, 0x80000000, 0x10000020, 1, 9, 4]) geomZero)
        hwErased ⟨0, 0⟩).map
        (fun o => (o.ret, o.dev.driver_data.page_size, o.dev.driver_data.erase_len,
          o.dev_layout))
      = some (some 0, 0x10000020, 512, ⟨0x400000, 512⟩) ∧
    16 * 0x10000020 ≠ 512) := by
  decide


/-! ## C14 -/

/-- C14 at a failing input: on an unlocked flash of 4097 pages of 512 bytes
(`flash_size = 0x200200`, not a multiple of the 8192-byte erase block) with a
ready controller, `flash_sam_erase` with the page-aligned `offset = 0x2000000`
and `len = flash_size` is neither the whole-chip shape (`offset ≠ 0`) nor the
block shape (`len` is not a multiple of `16 * page_size`), yet the call does
not return `-EINVAL`: the 16-bit `start_page` reads 0 and the erase-all command
is issued. -/
theorem erase_all_for_unshaped_request :
    geomOdd.locked = 0 ∧ geomOdd.page_size ∣ 0x2000000 ∧
    ¬ (0x2000000 = 0 ∧ 0x200200 = geomOdd.flash_size) ∧
    ¬ (16 * geomOdd.page_size ∣ 0x2000000 ∧ 16 * geomOdd.page_size ∣ 0x200200) ∧
    (flash_sam_erase (mkDev readyEfc geomOdd) hwErased 0x2000000 0x200200).ret = some 0 ∧
    (flash_sam_erase (mkDev readyEfc geomOdd) hwErased 0x2000000 0x200200).ret
      ≠ some (- EINVAL) ∧
    cmds (flash_sam_erase (mkDev readyEfc geomOdd) hwErased 0x2000000 0x200200).hw.trace
      = [⟨.EA, 0⟩] := by
  decide

/-- Where the page index of `offset` fits in 16 bits, the shapes decide the
outcome: on an unlocked device with `page_size = 2 ^ k`,
`erase_len = 16 * page_size` within 32 bits and a ready status register, a
page-aligned request returns `-EINVAL` exactly when it is neither the
whole-chip shape nor the block shape, and then no command is issued. -/
theorem erase_einval_iff (dev : Device) (hw : Hw) (offset len k : Nat)
    (hps : dev.driver_data.page_size = 2 ^ k)
    (hel : dev.driver_data.erase_len = 16 * dev.driver_data.page_size)
    (helr : dev.driver_data.erase_len < 2 ^ 32)
    (hunl : dev.driver_data.locked = 0)
    (hoff : dev.driver_data.page_size ∣ offset)
    (hready : dev.config.regs.EEFC_FSR hw.trace &&& 1 = 1)
    (hp16 : offset / dev.driver_data.page_size < 2 ^ 16) :
    ((flash_sam_erase dev hw offset len).ret = some (- EINVAL) ↔
      ¬ (offset = 0 ∧ len = dev.driver_data.flash_size) ∧
      ¬ (dev.driver_data.erase_len ∣ offset ∧ dev.driver_data.erase_len ∣ len)) ∧
    ((flash_sam_erase dev hw offset len).ret = some (- EINVAL) →
      cmds (flash_sam_erase dev hw offset len).hw.trace = cmds hw.trace) := by
  have hpos : 0 < dev.driver_data.page_size := by rw [hps]; exact Nat.two_pow_pos k
  have hp0 : dev.driver_data.page_size ≠ 0 := by omega
  have he0 : dev.driver_data.erase_len ≠ 0 := by omega
  have hel2 : dev.driver_data.erase_len = 2 ^ (k + 4) := by rw [hel, hps]; ring
  have hk4 : k + 4 < 32 := by
    rw [hel2] at helr
    exact (Nat.pow_lt_pow_iff_right (by norm_num)).1 helr
  have hal1 : is_aligned offset dev.driver_data.page_size = true := by
    rw [hps, is_aligned_two_pow _ _ (by omega), ← hps]; exact hoff
  have hsp : (offset / dev.driver_data.page_size) % 2 ^ 16
      = offset / dev.driver_data.page_size := Nat.mod_eq_of_lt hp16
  have hzero : offset / dev.driver_data.page_size = 0 ↔ offset = 0 := by
    constructor
    · intro h0
      have := Nat.div_mul_cancel hoff
      rw [h0] at this
      omega
    · rintro rfl; exact Nat.zero_div _
  have hA : ∀ x, is_aligned x dev.driver_data.erase_len = true
      ↔ dev.driver_data.erase_len ∣ x := by
    intro x
    rw [hel2, is_aligned_two_pow _ _ hk4]
  have hl := erase_loop_ret dev.config.regs dev.driver_data
    (len / dev.driver_data.erase_len) (offset / dev.driver_data.page_size)
    (read_FSR dev.config.regs hw).2
  have hal0 : is_aligned 0 dev.driver_data.page_size = true := by
    unfold is_aligned; simp
  by_cases hwc : offset = 0 ∧ len = dev.driver_data.flash_size
  · have hne : (flash_sam_erase dev hw offset len).ret ≠ some (- EINVAL) := by
      unfold flash_sam_erase
      simp only [hunl, hp0, hal1, read_FSR, hready, hsp, hzero, hwc, and_self, if_true]
      by_cases hack : (soc_iap_send_flash_cmd dev.config.regs
          (hw.log (.fsrRead (dev.config.regs.EEFC_FSR hw.trace))) ⟨.EA, 0⟩).1 = 1
      · simp [hack, EINVAL, hal0]
      · simp [hack, EINVAL, EIO, hal0]
    exact ⟨⟨fun h => absurd h hne, fun h => absurd hwc h.1⟩, fun h => absurd h hne⟩
  · by_cases hb : dev.driver_data.erase_len ∣ offset ∧ dev.driver_data.erase_len ∣ len
    · have hne : (flash_sam_erase dev hw offset len).ret ≠ some (- EINVAL) := by
        have h1 := (hA len).2 hb.2
        have h2 := (hA offset).2 hb.1
        unfold flash_sam_erase
        simp only [hunl, hp0, he0, hal1, read_FSR, hready, hsp, hzero, hwc, h1, h2]
        simp only [read_FSR] at hl
        rcases hl with hl | hl
        · simp [hl, EINVAL]
        · simp [hl, EINVAL, EIO]
      exact ⟨⟨fun h => absurd h hne, fun h => absurd hb h.2⟩, fun h => absurd h hne⟩
    · have h3 : (is_aligned len dev.driver_data.erase_len
          && is_aligned offset dev.driver_data.erase_len) = false := by
        rw [Bool.and_eq_false_iff, ← Bool.not_eq_true, ← Bool.not_eq_true, hA, hA]
        tauto
      have hout : flash_sam_erase dev hw offset len
          = ⟨some (- EINVAL), dev, (read_FSR dev.config.regs hw).2⟩ := by
        unfold flash_sam_erase
        simp only [hunl, hp0, hal1, read_FSR, hready, hsp, hzero, hwc, h3]
        simp
      rw [hout]
      exact ⟨⟨fun _ => ⟨hwc, hb⟩, fun _ => rfl⟩,
        fun _ => by simp [read_FSR, Hw.log, cmds_append, cmds]⟩

end FlashSam
